import Mathlib

/-!
Verification of the oathkeeper decision core against its specification.

Go strings are modelled as lists of characters (`GoStr`); the scope
strategies operate byte-wise on ASCII dots, so a character-level model is
faithful.  Stateful Go code is modelled by explicit state passing, external
collaborators (checksums, regex engines, HTTP, cryptographic signers) by
function parameters, and fallible code by `Option`/`Except`.
-/

namespace Fosite

/-- A Go string, modelled as its sequence of characters. -/
abbrev GoStr := List Char

/-- Conversion from a Lean string literal to the Go string model. -/
def toG (s : String) : GoStr := s.toList

/-- Split on the dot separator, mirroring Go strings.Split(s, ".").
Always returns at least one (possibly empty) segment. -/
def splitDot : GoStr → List GoStr
  | [] => [[]]
  | c :: rest =>
    if c = '.' then [] :: splitDot rest
    else
      match splitDot rest with
      | seg :: segs => (c :: seg) :: segs
      | [] => [[c]]

/-- Join segments with dots; inverse of splitDot. -/
def joinDot : List GoStr → GoStr
  | [] => []
  | [s] => s
  | s :: rest => s ++ '.' :: joinDot rest

/-- Inner loop of HierarchicScopeStrategy: ranges over the needle segments
from index k; haystackLen is len(currentHaystack)-1 as in the source. -/
def hierLoop (hay : List GoStr) (haystackLen : Int) : Nat → List GoStr → Bool
  | _, [] => false
  | k, currentNeedle :: rest =>
    if haystackLen < (k : Int) then true
    else
      match hay.get? k with
      | some current =>
        if current ≠ currentNeedle then false
        else hierLoop hay haystackLen (k + 1) rest
      | none => false

/-- One iteration of the outer loop of HierarchicScopeStrategy for a single
granted entry. -/
def hierOne (this needle : GoStr) : Bool :=
  if this = needle then true
  else if this.length > needle.length then false
  else
    let needles := splitDot needle
    let currentHaystack := splitDot this
    hierLoop currentHaystack ((currentHaystack.length : Int) - 1) 0 needles

/-- HierarchicScopeStrategy from src/fosite/scope_strategy.go. -/
def HierarchicScopeStrategy (haystack : List GoStr) (needle : GoStr) : Bool :=
  haystack.any fun this => hierOne this needle

/-- ExactScopeStrategy from src/fosite/scope_strategy.go. -/
def ExactScopeStrategy (haystack : List GoStr) (needle : GoStr) : Bool :=
  haystack.any fun this => needle = this

/-- Two consecutive dots somewhere in the string. -/
def hasDoubleDot : GoStr → Bool
  | a :: b :: rest => (a = '.' && b = '.') || hasDoubleDot (b :: rest)
  | _ => false

/-- hasEmptySegment from src/fosite/scope_strategy.go: leading dot, trailing
dot, or two consecutive dots (the empty string has no empty segment). -/
def hasEmptySegment (s : GoStr) : Bool :=
  if s.isEmpty then false
  else (s.head? = some '.') || (s.getLast? = some '.') || hasDoubleDot s

/-- The segment at the current cursor: characters up to the next dot. -/
def segOf (s : GoStr) : GoStr := s.takeWhile (· ≠ '.')

/-- Advance the cursor past the current segment and one following dot, the
nextPi / nextCi computation of matchFrom. -/
def restAfterSeg (s : GoStr) : GoStr :=
  match s.dropWhile (· ≠ '.') with
  | '.' :: r => r
  | r => r

/-- Fuel-indexed matchFrom from src/fosite/scope_strategy.go.  The Go
function walks the two strings with integer cursors; the cursors are
modelled as the remaining suffixes.  The star case inlines the tryStar
loop of the source: try the rest of the pattern here, else consume one
candidate segment and retry. -/
def matchFromF : Nat → GoStr → GoStr → Bool
  | 0, _, _ => false
  | _ + 1, [], c => c.isEmpty
  | fuel + 1, p@(_ :: _), c =>
    let pseg := segOf p
    let prest := restAfterSeg p
    if pseg = ['*'] then
      if prest.isEmpty then true
      else matchFromF fuel prest c || (!c.isEmpty && matchFromF fuel p (restAfterSeg c))
    else
      match c with
      | [] => false
      | c0 :: _ =>
        if c0 = '.' then false
        else
          let cseg := segOf c
          let crest := restAfterSeg c
          if pseg = ['+'] then matchFromF fuel prest crest
          else if pseg = cseg then matchFromF fuel prest crest
          else false

/-- matchFrom with enough fuel for its own termination measure. -/
def matchFrom (p c : GoStr) : Bool :=
  matchFromF (p.length + c.length + 1) p c

/-- matchPattern from src/fosite/scope_strategy.go. -/
def matchPattern (pattern candidate : GoStr) : Bool :=
  if hasEmptySegment candidate then false
  else matchFrom pattern candidate

/-- WildcardScopeStrategy from src/fosite/scope_strategy.go. -/
def WildcardScopeStrategy (haystack : List GoStr) (needle : GoStr) : Bool :=
  haystack.any fun pattern => matchPattern pattern needle

/-! Specification-side definitions for the scope-matching claims. -/

/-- The granted entry is a dot-segment-wise strict prefix of the needle:
every granted segment equals the corresponding leading needle segment and
the needle has more segments. -/
def SegStrictPref (this needle : GoStr) : Prop :=
  splitDot this <+: splitDot needle ∧
    (splitDot this).length < (splitDot needle).length

instance (this needle : GoStr) : Decidable (SegStrictPref this needle) := by
  unfold SegStrictPref; infer_instance

theorem restAfterSeg_length_le (s : GoStr) :
    (restAfterSeg s).length ≤ s.length := by
  induction s with
  | nil => simp [restAfterSeg, List.dropWhile]
  | cons a t ih =>
    by_cases h : a = '.'
    · subst h; simp [restAfterSeg, List.dropWhile]
    · have : restAfterSeg (a :: t) = restAfterSeg t := by
        simp [restAfterSeg, List.dropWhile, h]
      rw [this]
      exact Nat.le_trans ih (Nat.le_succ _)

theorem restAfterSeg_length_lt (s : GoStr) (h : s ≠ []) :
    (restAfterSeg s).length < s.length := by
  cases s with
  | nil => exact absurd rfl h
  | cons a t =>
    by_cases hd : a = '.'
    · subst hd
      simp [restAfterSeg, List.dropWhile]
    · have he : restAfterSeg (a :: t) = restAfterSeg t := by
        simp [restAfterSeg, List.dropWhile, hd]
      rw [he]
      exact Nat.lt_succ_of_le (restAfterSeg_length_le t)

/-- Cursor segmentation of a string, as the matchFrom cursors walk it: the
segment before the next dot, then the rest after that dot.  It differs from
splitDot only in that a single trailing dot does not give rise to a final
empty segment (matchFrom checks termination by cursor position after
skipping the dot). -/
def goSegs (s : GoStr) : List GoStr :=
  if h : s = [] then []
  else segOf s :: goSegs (restAfterSeg s)
termination_by s.length
decreasing_by exact restAfterSeg_length_lt s h

/-- The claimed wildcard segment semantics: a star pattern segment matches
zero or more candidate segments, a plus segment exactly one non-empty
segment, a literal segment an equal segment. -/
def segsMatch : List GoStr → List GoStr → Bool
  | [], cs => cs.isEmpty
  | p :: ps, cs =>
    if p = ['*'] then
      (List.range (cs.length + 1)).any fun k => segsMatch ps (cs.drop k)
    else
      match cs with
      | [] => false
      | c :: cs' =>
        if p = ['+'] then !c.isEmpty && segsMatch ps cs'
        else if p = c then segsMatch ps cs'
        else false

theorem matchFromF_irrel :
    ∀ (n : Nat) (p c : GoStr), p.length + c.length ≤ n →
      ∀ f g : Nat, p.length + c.length < f → p.length + c.length < g →
        matchFromF f p c = matchFromF g p c := by
  intro n
  induction n with
  | zero =>
    intro p c hle f g hf hg
    have hp : p = [] := by cases p <;> simp_all
    have hc : c = [] := by cases c <;> simp_all
    subst hp; subst hc
    obtain ⟨f', rfl⟩ : ∃ f', f = f' + 1 := ⟨f - 1, by omega⟩
    obtain ⟨g', rfl⟩ : ∃ g', g = g' + 1 := ⟨g - 1, by omega⟩
    rfl
  | succ n ih =>
    intro p c hle f g hf hg
    obtain ⟨f', rfl⟩ : ∃ f', f = f' + 1 := ⟨f - 1, by omega⟩
    obtain ⟨g', rfl⟩ : ∃ g', g = g' + 1 := ⟨g - 1, by omega⟩
    cases p with
    | nil => rfl
    | cons p0 pt =>
      have hplt : (restAfterSeg (p0 :: pt)).length < pt.length + 1 := by
        simpa using restAfterSeg_length_lt (p0 :: pt) (by simp)
      simp only [matchFromF]
      by_cases hstar : segOf (p0 :: pt) = ['*']
      · simp only [hstar, if_true]
        by_cases hrest : (restAfterSeg (p0 :: pt)).isEmpty
        · simp [hrest]
        · simp only [hrest, Bool.false_eq_true, if_false]
          have h1 : matchFromF f' (restAfterSeg (p0 :: pt)) c
              = matchFromF g' (restAfterSeg (p0 :: pt)) c := by
            apply ih <;> simp at hle hf hg ⊢ <;> omega
          cases c with
          | nil => simp [h1]
          | cons c0 ct =>
            have hclt : (restAfterSeg (c0 :: ct)).length < ct.length + 1 := by
              simpa using restAfterSeg_length_lt (c0 :: ct) (by simp)
            have h2 : matchFromF f' (p0 :: pt) (restAfterSeg (c0 :: ct))
                = matchFromF g' (p0 :: pt) (restAfterSeg (c0 :: ct)) := by
              apply ih <;> simp at hle hf hg ⊢ <;> omega
            simp [h1, h2]
      · simp only [hstar, Bool.false_eq_true, if_false]
        cases c with
        | nil => rfl
        | cons c0 ct =>
          have hclt : (restAfterSeg (c0 :: ct)).length < ct.length + 1 := by
            simpa using restAfterSeg_length_lt (c0 :: ct) (by simp)
          have h3 : matchFromF f' (restAfterSeg (p0 :: pt)) (restAfterSeg (c0 :: ct))
              = matchFromF g' (restAfterSeg (p0 :: pt)) (restAfterSeg (c0 :: ct)) := by
            apply ih <;> simp at hle hf hg ⊢ <;> omega
          simp [h3]

theorem matchFromF_eq_matchFrom (f : Nat) (p c : GoStr)
    (h : p.length + c.length < f) : matchFromF f p c = matchFrom p c :=
  matchFromF_irrel (p.length + c.length) p c le_rfl f _ h (Nat.lt_succ_self _)

theorem matchFromF_succ_nil (fuel : Nat) (c : GoStr) :
    matchFromF (fuel + 1) [] c = c.isEmpty := rfl

theorem matchFromF_succ_cons_nil (fuel : Nat) (p0 : Char) (pt : GoStr) :
    matchFromF (fuel + 1) (p0 :: pt) []
      = (if segOf (p0 :: pt) = ['*'] then
          if (restAfterSeg (p0 :: pt)).isEmpty then true
          else
            matchFromF fuel (restAfterSeg (p0 :: pt)) []
              || (!(([] : GoStr)).isEmpty
                    && matchFromF fuel (p0 :: pt) (restAfterSeg []))
        else false) := rfl

theorem matchFromF_succ_cons_cons (fuel : Nat) (p0 c0 : Char) (pt ct : GoStr) :
    matchFromF (fuel + 1) (p0 :: pt) (c0 :: ct)
      = (if segOf (p0 :: pt) = ['*'] then
          if (restAfterSeg (p0 :: pt)).isEmpty then true
          else
            matchFromF fuel (restAfterSeg (p0 :: pt)) (c0 :: ct)
              || (!((c0 :: ct) : GoStr).isEmpty
                    && matchFromF fuel (p0 :: pt) (restAfterSeg (c0 :: ct)))
        else if c0 = '.' then false
        else if segOf (p0 :: pt) = ['+'] then
          matchFromF fuel (restAfterSeg (p0 :: pt)) (restAfterSeg (c0 :: ct))
        else if segOf (p0 :: pt) = segOf (c0 :: ct) then
          matchFromF fuel (restAfterSeg (p0 :: pt)) (restAfterSeg (c0 :: ct))
        else false) := rfl

theorem matchFrom_nil_left (c : GoStr) : matchFrom [] c = c.isEmpty := rfl

theorem matchFrom_star_last (p0 : Char) (pt c : GoStr)
    (hstar : segOf (p0 :: pt) = ['*']) (hrest : restAfterSeg (p0 :: pt) = []) :
    matchFrom (p0 :: pt) c = true := by
  cases c with
  | nil =>
    rw [matchFrom, matchFromF_succ_cons_nil, if_pos hstar, if_pos (by simp [hrest])]
  | cons c0 ct =>
    rw [matchFrom, matchFromF_succ_cons_cons, if_pos hstar, if_pos (by simp [hrest])]

theorem matchFrom_star_step (p0 : Char) (pt c : GoStr)
    (hstar : segOf (p0 :: pt) = ['*']) (hrest : restAfterSeg (p0 :: pt) ≠ []) :
    matchFrom (p0 :: pt) c
      = (matchFrom (restAfterSeg (p0 :: pt)) c
          || (!c.isEmpty && matchFrom (p0 :: pt) (restAfterSeg c))) := by
  have hplt : (restAfterSeg (p0 :: pt)).length < pt.length + 1 := by
    simpa using restAfterSeg_length_lt (p0 :: pt) (by simp)
  cases c with
  | nil =>
    rw [matchFrom, matchFromF_succ_cons_nil, if_pos hstar,
      if_neg (by simp [hrest])]
    have e1 : matchFromF ((p0 :: pt).length + ([] : GoStr).length)
        (restAfterSeg (p0 :: pt)) [] = matchFrom (restAfterSeg (p0 :: pt)) [] :=
      matchFromF_eq_matchFrom _ _ _ (by simp only [List.length_cons, List.length_nil]; omega)
    rw [e1]; simp
  | cons c0 ct =>
    have hclt : (restAfterSeg (c0 :: ct)).length < ct.length + 1 := by
      simpa using restAfterSeg_length_lt (c0 :: ct) (by simp)
    rw [matchFrom, matchFromF_succ_cons_cons, if_pos hstar,
      if_neg (by simp [hrest])]
    have e1 : matchFromF ((p0 :: pt).length + (c0 :: ct).length)
        (restAfterSeg (p0 :: pt)) (c0 :: ct)
        = matchFrom (restAfterSeg (p0 :: pt)) (c0 :: ct) :=
      matchFromF_eq_matchFrom _ _ _ (by simp only [List.length_cons]; omega)
    have e2 : matchFromF ((p0 :: pt).length + (c0 :: ct).length)
        (p0 :: pt) (restAfterSeg (c0 :: ct))
        = matchFrom (p0 :: pt) (restAfterSeg (c0 :: ct)) :=
      matchFromF_eq_matchFrom _ _ _ (by simp only [List.length_cons]; omega)
    rw [e1, e2]

theorem matchFrom_notstar_nil (p0 : Char) (pt : GoStr)
    (hstar : segOf (p0 :: pt) ≠ ['*']) : matchFrom (p0 :: pt) [] = false := by
  rw [matchFrom, matchFromF_succ_cons_nil, if_neg hstar]

theorem matchFrom_notstar_dot (p0 : Char) (pt ct : GoStr)
    (hstar : segOf (p0 :: pt) ≠ ['*']) :
    matchFrom (p0 :: pt) ('.' :: ct) = false := by
  rw [matchFrom, matchFromF_succ_cons_cons, if_neg hstar, if_pos rfl]

theorem matchFrom_plus (p0 c0 : Char) (pt ct : GoStr)
    (hstar : segOf (p0 :: pt) ≠ ['*']) (hplus : segOf (p0 :: pt) = ['+'])
    (hdot : c0 ≠ '.') :
    matchFrom (p0 :: pt) (c0 :: ct)
      = matchFrom (restAfterSeg (p0 :: pt)) (restAfterSeg (c0 :: ct)) := by
  have hplt : (restAfterSeg (p0 :: pt)).length < pt.length + 1 := by
    simpa using restAfterSeg_length_lt (p0 :: pt) (by simp)
  have hclt : (restAfterSeg (c0 :: ct)).length < ct.length + 1 := by
    simpa using restAfterSeg_length_lt (c0 :: ct) (by simp)
  rw [matchFrom, matchFromF_succ_cons_cons, if_neg hstar, if_neg hdot,
    if_pos hplus]
  exact matchFromF_eq_matchFrom _ _ _ (by simp only [List.length_cons]; omega)

theorem matchFrom_lit (p0 c0 : Char) (pt ct : GoStr)
    (hstar : segOf (p0 :: pt) ≠ ['*']) (hplus : segOf (p0 :: pt) ≠ ['+'])
    (hdot : c0 ≠ '.') :
    matchFrom (p0 :: pt) (c0 :: ct)
      = (decide (segOf (p0 :: pt) = segOf (c0 :: ct))
          && matchFrom (restAfterSeg (p0 :: pt)) (restAfterSeg (c0 :: ct))) := by
  have hplt : (restAfterSeg (p0 :: pt)).length < pt.length + 1 := by
    simpa using restAfterSeg_length_lt (p0 :: pt) (by simp)
  have hclt : (restAfterSeg (c0 :: ct)).length < ct.length + 1 := by
    simpa using restAfterSeg_length_lt (c0 :: ct) (by simp)
  rw [matchFrom, matchFromF_succ_cons_cons, if_neg hstar, if_neg hdot,
    if_neg hplus]
  by_cases heq : segOf (p0 :: pt) = segOf (c0 :: ct)
  · rw [if_pos heq,
      matchFromF_eq_matchFrom _ _ _ (by simp only [List.length_cons]; omega)]
    simp [heq]
  · rw [if_neg heq]
    simp [heq]

theorem restAfterSeg_nil : restAfterSeg [] = [] := rfl

theorem restAfterSeg_cons_dot (u : GoStr) : restAfterSeg ('.' :: u) = u := by
  simp [restAfterSeg, List.dropWhile]

theorem restAfterSeg_cons_ne (a : Char) (t : GoStr) (h : a ≠ '.') :
    restAfterSeg (a :: t) = restAfterSeg t := by
  simp [restAfterSeg, List.dropWhile, h]

theorem segOf_cons_dot (t : GoStr) : segOf ('.' :: t) = [] := by
  simp [segOf, List.takeWhile]

theorem segOf_cons_ne (a : Char) (t : GoStr) (h : a ≠ '.') :
    segOf (a :: t) = a :: segOf t := by
  simp [segOf, List.takeWhile, h]

theorem goSegs_nil : goSegs [] = [] := by
  rw [goSegs]; rfl

theorem goSegs_cons (s : GoStr) (h : s ≠ []) :
    goSegs s = segOf s :: goSegs (restAfterSeg s) := by
  rw [goSegs]; simp [h]

theorem goSegs_eq_nil_iff (s : GoStr) : goSegs s = [] ↔ s = [] := by
  constructor
  · intro h
    by_contra hne
    rw [goSegs_cons s hne] at h
    exact List.cons_ne_nil _ _ h
  · intro h; subst h; exact goSegs_nil

theorem goSegs_isEmpty (s : GoStr) : (goSegs s).isEmpty = s.isEmpty := by
  cases hs : goSegs s with
  | nil =>
    rw [goSegs_eq_nil_iff] at hs; subst hs; rfl
  | cons a l =>
    have : s ≠ [] := by
      intro h; subst h; rw [goSegs_nil] at hs; exact List.cons_ne_nil _ _ hs.symm
    simp [List.isEmpty_iff, this]

theorem segsMatch_star_rec (ps : List GoStr) (cs : List GoStr) :
    segsMatch (['*'] :: ps) cs
      = (segsMatch ps cs || (!cs.isEmpty && segsMatch (['*'] :: ps) cs.tail)) := by
  cases cs with
  | nil =>
    simp [segsMatch, List.range_succ]
  | cons c cs' =>
    show ((List.range (cs'.length + 1 + 1)).any fun k => segsMatch ps ((c :: cs').drop k))
        = _
    rw [List.range_succ_eq_map]
    simp only [List.any_cons, List.any_map, Function.comp_def, List.drop_zero]
    have hfun : (fun k => segsMatch ps ((c :: cs').drop (k + 1)))
        = fun k => segsMatch ps (cs'.drop k) := rfl
    rw [hfun]
    simp [segsMatch]

theorem segsMatch_star_nilrest (cs : List GoStr) : segsMatch [['*']] cs = true := by
  show ((List.range (cs.length + 1)).any fun k => segsMatch [] (cs.drop k)) = true
  rw [List.any_eq_true]
  refine ⟨cs.length, ?_, ?_⟩
  · simp
  · simp [segsMatch]

theorem segsMatch_notstar_nil (p : GoStr) (ps : List GoStr) (h : p ≠ ['*']) :
    segsMatch (p :: ps) [] = false := by
  simp [segsMatch, h]

theorem segsMatch_plus (ps : List GoStr) (c : GoStr) (cs : List GoStr) :
    segsMatch (['+'] :: ps) (c :: cs) = (!c.isEmpty && segsMatch ps cs) := by
  simp [segsMatch]

theorem segsMatch_lit (p : GoStr) (ps : List GoStr) (c : GoStr) (cs : List GoStr)
    (hstar : p ≠ ['*']) (hplus : p ≠ ['+']) :
    segsMatch (p :: ps) (c :: cs) = (decide (p = c) && segsMatch ps cs) := by
  simp only [segsMatch, hstar, hplus, if_false]
  by_cases h : p = c <;> simp [h]

theorem hasEmptySegment_cons_iff (a : Char) (t : GoStr) :
    hasEmptySegment (a :: t) = false
      ↔ (a ≠ '.' ∧ (a :: t).getLast? ≠ some '.' ∧ hasDoubleDot (a :: t) = false) := by
  simp [hasEmptySegment]
  tauto

theorem hasDoubleDot_cons_cons (a b : Char) (u : GoStr) :
    hasDoubleDot (a :: b :: u) = false
      ↔ (¬(a = '.' ∧ b = '.') ∧ hasDoubleDot (b :: u) = false) := by
  show ((a = '.' && b = '.') || hasDoubleDot (b :: u)) = false ↔ _
  simp

theorem clean_restAfterSeg : ∀ (c : GoStr), hasEmptySegment c = false →
    hasEmptySegment (restAfterSeg c) = false
  | [], _ => by rw [restAfterSeg_nil]; decide
  | [a], h => by
    have ha : a ≠ '.' := ((hasEmptySegment_cons_iff a []).mp h).1
    rw [restAfterSeg_cons_ne a [] ha, restAfterSeg_nil]; decide
  | a :: b :: u, h => by
    obtain ⟨ha, hlast, hdd⟩ := (hasEmptySegment_cons_iff a (b :: u)).mp h
    obtain ⟨hab, hddbu⟩ := (hasDoubleDot_cons_cons a b u).mp hdd
    have hlastbu : (b :: u).getLast? ≠ some '.' := by
      rwa [List.getLast?_cons_cons] at hlast
    rw [restAfterSeg_cons_ne a (b :: u) ha]
    by_cases hb : b = '.'
    · subst hb
      rw [restAfterSeg_cons_dot]
      cases u with
      | nil => simp at hlastbu
      | cons v w =>
        obtain ⟨hdv, hddvw⟩ := (hasDoubleDot_cons_cons '.' v w).mp hddbu
        have hv : v ≠ '.' := fun hv => hdv ⟨rfl, hv⟩
        rw [hasEmptySegment_cons_iff]
        refine ⟨hv, ?_, hddvw⟩
        rwa [List.getLast?_cons_cons] at hlastbu
    · have hclean : hasEmptySegment (b :: u) = false :=
        (hasEmptySegment_cons_iff b u).mpr ⟨hb, hlastbu, hddbu⟩
      exact clean_restAfterSeg (b :: u) hclean

theorem matchFrom_eq_segsMatch :
    ∀ (n : Nat) (p c : GoStr), p.length + c.length ≤ n →
      hasEmptySegment c = false →
      matchFrom p c = segsMatch (goSegs p) (goSegs c) := by
  intro n
  induction n with
  | zero =>
    intro p c hle _
    have hp : p = [] := by cases p <;> simp_all
    have hc : c = [] := by cases c <;> simp_all
    subst hp; subst hc
    rw [matchFrom_nil_left, goSegs_nil]
    rfl
  | succ n ih =>
    intro p c hle hclean
    cases p with
    | nil =>
      rw [matchFrom_nil_left, goSegs_nil]
      show c.isEmpty = segsMatch [] (goSegs c)
      rw [show segsMatch [] (goSegs c) = (goSegs c).isEmpty from rfl, goSegs_isEmpty]
    | cons p0 pt =>
      have hpne : (p0 :: pt) ≠ [] := by simp
      have hplt : (restAfterSeg (p0 :: pt)).length < pt.length + 1 := by
        simpa using restAfterSeg_length_lt (p0 :: pt) hpne
      by_cases hstar : segOf (p0 :: pt) = ['*']
      · by_cases hrest : restAfterSeg (p0 :: pt) = []
        · rw [matchFrom_star_last p0 pt c hstar hrest]
          rw [goSegs_cons _ hpne, hstar, hrest, goSegs_nil]
          exact (segsMatch_star_nilrest (goSegs c)).symm
        · rw [matchFrom_star_step p0 pt c hstar hrest]
          rw [goSegs_cons _ hpne, hstar, segsMatch_star_rec]
          have e1 : matchFrom (restAfterSeg (p0 :: pt)) c
              = segsMatch (goSegs (restAfterSeg (p0 :: pt))) (goSegs c) := by
            apply ih
            · simp only [List.length_cons] at hle; omega
            · exact hclean
          rw [e1, goSegs_isEmpty]
          cases c with
          | nil => simp
          | cons c0 ct =>
            have hcne : (c0 :: ct) ≠ [] := by simp
            have hclt : (restAfterSeg (c0 :: ct)).length < ct.length + 1 := by
              simpa using restAfterSeg_length_lt (c0 :: ct) hcne
            have e2 : matchFrom (p0 :: pt) (restAfterSeg (c0 :: ct))
                = segsMatch (goSegs (p0 :: pt)) (goSegs (restAfterSeg (c0 :: ct))) := by
              apply ih
              · simp only [List.length_cons] at hle ⊢; omega
              · exact clean_restAfterSeg _ hclean
            rw [goSegs_cons _ hpne, hstar] at e2
            rw [goSegs_cons _ hcne, List.tail_cons, e2]
      · cases c with
        | nil =>
          rw [matchFrom_notstar_nil p0 pt hstar, goSegs_nil, goSegs_cons _ hpne]
          exact (segsMatch_notstar_nil _ _ hstar).symm
        | cons c0 ct =>
          have hcne : (c0 :: ct) ≠ [] := by simp
          have hclt : (restAfterSeg (c0 :: ct)).length < ct.length + 1 := by
            simpa using restAfterSeg_length_lt (c0 :: ct) hcne
          by_cases hdot : c0 = '.'
          · subst hdot
            rw [hasEmptySegment_cons_iff] at hclean
            exact absurd rfl hclean.1
          · have hsegne : segOf (c0 :: ct) ≠ [] := by
              rw [segOf_cons_ne _ _ hdot]; simp
            have erec : matchFrom (restAfterSeg (p0 :: pt)) (restAfterSeg (c0 :: ct))
                = segsMatch (goSegs (restAfterSeg (p0 :: pt)))
                    (goSegs (restAfterSeg (c0 :: ct))) := by
              apply ih
              · simp only [List.length_cons] at hle ⊢; omega
              · exact clean_restAfterSeg _ hclean
            rw [goSegs_cons _ hpne, goSegs_cons _ hcne]
            by_cases hplus : segOf (p0 :: pt) = ['+']
            · rw [matchFrom_plus p0 c0 pt ct hstar hplus hdot, hplus,
                segsMatch_plus, erec]
              simp [List.isEmpty_iff, hsegne]
            · rw [matchFrom_lit p0 c0 pt ct hstar hplus hdot,
                segsMatch_lit _ _ _ _ hstar hplus, erec]

theorem splitDot_ne_nil (s : GoStr) : splitDot s ≠ [] := by
  cases s with
  | nil => simp [splitDot]
  | cons c rest =>
    by_cases h : c = '.'
    · simp [splitDot, h]
    · simp only [splitDot, h, if_false]
      cases hr : splitDot rest with
      | nil => simp
      | cons seg segs => simp

theorem splitDot_cons_dot (r : GoStr) : splitDot ('.' :: r) = [] :: splitDot r := by
  simp [splitDot]

theorem splitDot_cons_ne (c : Char) (r : GoStr) (h : c ≠ '.')
    (seg : GoStr) (segs : List GoStr) (hr : splitDot r = seg :: segs) :
    splitDot (c :: r) = (c :: seg) :: segs := by
  simp [splitDot, h, hr]

theorem joinDot_cons_cons (s t : GoStr) (r : List GoStr) :
    joinDot (s :: t :: r) = s ++ '.' :: joinDot (t :: r) := rfl

theorem joinDot_splitDot (s : GoStr) : joinDot (splitDot s) = s := by
  induction s with
  | nil => rfl
  | cons c rest ih =>
    by_cases h : c = '.'
    · subst h
      rw [splitDot_cons_dot]
      cases hr : splitDot rest with
      | nil => exact absurd hr (splitDot_ne_nil rest)
      | cons seg segs =>
        rw [joinDot_cons_cons, ← hr, ih]
        rfl
    · cases hr : splitDot rest with
      | nil => exact absurd hr (splitDot_ne_nil rest)
      | cons seg segs =>
        rw [splitDot_cons_ne c rest h seg segs hr]
        rw [hr] at ih
        cases segs with
        | nil =>
          show c :: seg = c :: rest
          have : joinDot [seg] = seg := rfl
          rw [this] at ih
          rw [ih]
        | cons t r2 =>
          rw [joinDot_cons_cons, ← ih, joinDot_cons_cons]
          rfl

theorem joinDot_append (A B : List GoStr) (hA : A ≠ []) (hB : B ≠ []) :
    joinDot (A ++ B) = joinDot A ++ '.' :: joinDot B := by
  induction A with
  | nil => exact absurd rfl hA
  | cons a A' ih =>
    cases A' with
    | nil =>
      cases B with
      | nil => exact absurd rfl hB
      | cons b B' =>
        rw [List.singleton_append, joinDot_cons_cons]
        rfl
    | cons a2 A2 =>
      have ih2 := ih (by simp)
      calc joinDot ((a :: a2 :: A2) ++ B)
          = a ++ '.' :: joinDot ((a2 :: A2) ++ B) := rfl
        _ = a ++ '.' :: (joinDot (a2 :: A2) ++ '.' :: joinDot B) := by rw [ih2]
        _ = (a ++ '.' :: joinDot (a2 :: A2)) ++ '.' :: joinDot B := by simp
        _ = joinDot (a :: a2 :: A2) ++ '.' :: joinDot B := rfl

theorem SegStrictPref_length_lt (t n : GoStr) (h : SegStrictPref t n) :
    t.length < n.length := by
  obtain ⟨⟨B, hB⟩, hlt⟩ := h
  have hBne : B ≠ [] := by
    intro hb; subst hb; simp at hB
    rw [hB] at hlt; exact lt_irrefl _ hlt
  have hjoin : joinDot (splitDot n) = joinDot (splitDot t) ++ '.' :: joinDot B := by
    rw [← hB]
    exact joinDot_append _ _ (splitDot_ne_nil t) hBne
  rw [joinDot_splitDot, joinDot_splitDot] at hjoin
  rw [hjoin]
  simp

theorem hierLoop_char (hay : List GoStr) :
    ∀ (rest : List GoStr) (k : Nat),
      hierLoop hay ((hay.length : Int) - 1) k rest = true
        ↔ (hay.length - k < rest.length ∧ rest.take (hay.length - k) = hay.drop k) := by
  intro rest
  induction rest with
  | nil =>
    intro k
    simp [hierLoop]
  | cons nd rest' ih =>
    intro k
    by_cases hk : hay.length ≤ k
    · have hcond : ((hay.length : Int) - 1) < (k : Int) := by omega
      have hm : hay.length - k = 0 := by omega
      rw [show hierLoop hay ((hay.length : Int) - 1) k (nd :: rest')
          = if ((hay.length : Int) - 1) < (k : Int) then true
            else match hay.get? k with
              | some current =>
                if current ≠ nd then false
                else hierLoop hay ((hay.length : Int) - 1) (k + 1) rest'
              | none => false from rfl]
      rw [if_pos hcond, hm]
      simp [List.drop_eq_nil_of_le hk]
    · push_neg at hk
      have hcond : ¬(((hay.length : Int) - 1) < (k : Int)) := by omega
      obtain ⟨a, hget⟩ : ∃ a, hay.get? k = some a :=
        ⟨hay.get ⟨k, hk⟩, List.get?_eq_get hk⟩
      have hdrop : hay.drop k = a :: hay.drop (k + 1) := by
        have := List.drop_eq_getElem_cons hk
        rw [this]
        congr 1
        have h2 := List.get?_eq_getElem? hay k
        rw [hget] at h2
        have h3 := List.getElem?_eq_getElem hk
        rw [h3] at h2
        exact (Option.some.injEq _ _).mp h2.symm
      have hm1 : 1 ≤ hay.length - k := by omega
      rw [show hierLoop hay ((hay.length : Int) - 1) k (nd :: rest')
          = if ((hay.length : Int) - 1) < (k : Int) then true
            else match hay.get? k with
              | some current =>
                if current ≠ nd then false
                else hierLoop hay ((hay.length : Int) - 1) (k + 1) rest'
              | none => false from rfl]
      rw [if_neg hcond, hget]
      rw [show (match some a with
            | some current => if current ≠ nd then false
                else hierLoop hay ((hay.length : Int) - 1) (k + 1) rest'
            | none => false)
          = (if a ≠ nd then false
             else hierLoop hay ((hay.length : Int) - 1) (k + 1) rest') from rfl]
      by_cases hne : a = nd
      · rw [hne] at hdrop
        rw [show (if a ≠ nd then false
              else hierLoop hay ((hay.length : Int) - 1) (k + 1) rest')
            = hierLoop hay ((hay.length : Int) - 1) (k + 1) rest' from
          if_neg (by simp [hne])]
        rw [ih (k + 1)]
        constructor
        · rintro ⟨h1, h2⟩
          refine ⟨by simp only [List.length_cons]; omega, ?_⟩
          obtain ⟨m, hmeq⟩ : ∃ m, hay.length - k = m + 1 :=
            ⟨hay.length - (k + 1), by omega⟩
          rw [hmeq, List.take_succ_cons, hdrop]
          congr 1
          rw [show m = hay.length - (k + 1) from by omega]
          exact h2
        · rintro ⟨h1, h2⟩
          simp only [List.length_cons] at h1
          obtain ⟨m, hmeq⟩ : ∃ m, hay.length - k = m + 1 :=
            ⟨hay.length - (k + 1), by omega⟩
          rw [hmeq, List.take_succ_cons, hdrop] at h2
          injection h2 with h3 h4
          refine ⟨by omega, ?_⟩
          rw [show hay.length - (k + 1) = m from by omega]
          exact h4
      · rw [show (if a ≠ nd then false
              else hierLoop hay ((hay.length : Int) - 1) (k + 1) rest')
            = false from if_pos hne]
        constructor
        · intro h; exact absurd h (by simp)
        · rintro ⟨h1, h2⟩
          simp only [List.length_cons] at h1
          obtain ⟨m, hmeq⟩ : ∃ m, hay.length - k = m + 1 :=
            ⟨hay.length - (k + 1), by omega⟩
          rw [hmeq, List.take_succ_cons, hdrop] at h2
          injection h2 with h5 h6
          exact absurd h5.symm hne

theorem hierOne_iff (this needle : GoStr) :
    hierOne this needle = true ↔ (this = needle ∨ SegStrictPref this needle) := by
  by_cases heq : this = needle
  · simp [hierOne, heq]
  · rw [hierOne, if_neg heq]
    by_cases hlen : this.length > needle.length
    · rw [if_pos hlen]
      simp only [Bool.false_eq_true, false_iff]
      rintro (h | h)
      · exact heq h
      · have := SegStrictPref_length_lt _ _ h
        omega
    · rw [if_neg hlen]
      show hierLoop (splitDot this) (((splitDot this).length : Int) - 1) 0
          (splitDot needle) = true ↔ _
      rw [hierLoop_char (splitDot this) (splitDot needle) 0]
      simp only [Nat.sub_zero, List.drop_zero]
      constructor
      · rintro ⟨h1, h2⟩
        right
        refine ⟨⟨(splitDot needle).drop (splitDot this).length, ?_⟩, h1⟩
        calc splitDot this ++ (splitDot needle).drop (splitDot this).length
            = (splitDot needle).take (splitDot this).length
                ++ (splitDot needle).drop (splitDot this).length := by rw [h2]
          _ = splitDot needle := List.take_append_drop _ _
      · rintro (h | ⟨⟨B, hB⟩, hlt⟩)
        · exact absurd h heq
        · refine ⟨hlt, ?_⟩
          rw [← hB, List.take_left]

/-- C7: the hierarchic scope strategy accepts exactly when some granted
entry equals the needle byte-for-byte or is a dot-segment-wise strict
prefix of it; an entry strictly longer than the needle never matches; and
the two documented examples hold. -/
theorem c7_hierarchic_scope :
    (∀ (haystack : List GoStr) (needle : GoStr),
      HierarchicScopeStrategy haystack needle = true
        ↔ ∃ g ∈ haystack, g = needle ∨ SegStrictPref g needle)
    ∧ (∀ g needle : GoStr, g.length > needle.length → hierOne g needle = false)
    ∧ HierarchicScopeStrategy [toG "picture"] (toG "picture.read") = true
    ∧ HierarchicScopeStrategy [toG "picture.read"] (toG "picture") = false := by
  refine ⟨?_, ?_, by decide, by decide⟩
  · intro hay needle
    rw [HierarchicScopeStrategy, List.any_eq_true]
    constructor
    · rintro ⟨g, hg, hone⟩
      exact ⟨g, hg, (hierOne_iff g needle).mp hone⟩
    · rintro ⟨g, hg, hcase⟩
      exact ⟨g, hg, (hierOne_iff g needle).mpr hcase⟩
  · intro g needle h
    have hne : g ≠ needle := by
      intro e; subst e; omega
    rw [hierOne, if_neg hne, if_pos h]

/-- Witness for c7_hierarchic_scope: the strictly-longer clause applied at
the documented example. -/
theorem c7_hierarchic_scope_witness :
    hierOne (toG "picture.read") (toG "picture") = false :=
  c7_hierarchic_scope.2.1 (toG "picture.read") (toG "picture") (by decide)

/-- C8 counterexample: the pattern "a." matches the candidate "a" in the
source matcher, although under plain dot-split segmentation the pattern has
a trailing empty literal segment with no candidate segment to match, so the
claimed segment semantics rejects the pair. -/
theorem c8_wildcard_counterexample :
    matchPattern (toG "a.") (toG "a") = true
    ∧ hasEmptySegment (toG "a") = false
    ∧ segsMatch (splitDot (toG "a.")) (splitDot (toG "a")) = false := by
  refine ⟨by decide, by decide, by decide⟩

/-- C8 (amended): the per-entry wildcard match equals the claimed segment
semantics, with pattern and candidate segmented by the cursor segmentation
goSegs (a single trailing dot yields no final empty segment) instead of the
plain dot-split, and candidates containing an empty segment rejected
up front; the five documented examples hold. -/
theorem c8_wildcard_segment_semantics :
    (∀ p c : GoStr, matchPattern p c
        = (!hasEmptySegment c && segsMatch (goSegs p) (goSegs c)))
    ∧ WildcardScopeStrategy [toG "a.+.c"] (toG "a.b.c") = true
    ∧ WildcardScopeStrategy [toG "a.+.c"] (toG "a..c") = false
    ∧ WildcardScopeStrategy [toG "a.*"] (toG "a.b.c.d") = true
    ∧ WildcardScopeStrategy [toG "a.b.*.d"] (toG "a.b.d") = true
    ∧ WildcardScopeStrategy [toG "x.*.y"] (toG "x.a.b.y") = true := by
  refine ⟨?_, by decide, by decide, by decide, by decide, by decide⟩
  intro p c
  by_cases hclean : hasEmptySegment c = true
  · simp [matchPattern, hclean]
  · have hfalse : hasEmptySegment c = false := by
      revert hclean; cases hasEmptySegment c <;> simp
    rw [matchPattern, if_neg (by simp [hfalse]), hfalse]
    rw [matchFrom_eq_segsMatch (p.length + c.length) p c le_rfl hfalse]
    simp

end Fosite

deriving instance DecidableEq for Except

namespace RuleEngine

open Fosite (GoStr toG)

/-- Go strings.Contains for a fixed needle. -/
def containsL (needle : GoStr) : GoStr → Bool
  | [] => needle.isEmpty
  | s@(_ :: rest) => needle.isPrefixOf s || containsL needle rest

/-- Go strings.ReplaceAll for a two-character pattern replaced by one
character, scanning left to right without overlap. -/
def replacePair (x y r : Char) : GoStr → GoStr
  | a :: b :: rest =>
    if a = x ∧ b = y then r :: replacePair x y r rest
    else a :: replacePair x y r (b :: rest)
  | other => other

/-- Compilation errors of the matching engine: the delimiter-ambiguity
error of the pre-pass (carrying the rewritten pattern, as the source
formats it into the message), or an error of the underlying regex
compiler. -/
inductive CompileErr where
  | mustSwitchDelimiters (pattern : GoStr)
  | regexErr (msg : String)
deriving DecidableEq

/-- The delimiter pre-pass of regexpMatchingEngine.compile from
src/rule/engine_regexp.go (lines 29-46): rewrite doubled delimiters to
sentinel characters, then decide the active delimiter pair, failing when
advanced regex features are used without both sentinels present. -/
def compilePrepass (pattern : GoStr) : Except CompileErr (GoStr × Char × Char) :=
  let startDelim := '<'
  let endDelim := '>'
  let (pattern, startDelim) :=
    if containsL (toG "<<") pattern then
      (replacePair '<' '<' '«' pattern, '«')
    else (pattern, startDelim)
  let (pattern, endDelim) :=
    if containsL (toG ">>") pattern then
      (replacePair '>' '>' '»' pattern, '»')
    else (pattern, endDelim)
  if containsL (toG "(?>") pattern || containsL (toG "(?<") pattern then
    if pattern.contains '«' && pattern.contains '»' then
      .ok (pattern, '«', '»')
    else
      .error (.mustSwitchDelimiters pattern)
  else
    .ok (pattern, startDelim, endDelim)

/-- The cache state of regexpMatchingEngine: the compiled matcher, the
checksum of the last successfully compiled pattern, and whether the crc
table has been initialized.  The matcher type is abstract. -/
structure RegexpMatchingEngine (M : Type) where
  compiled : Option M
  checksum : Nat
  table : Bool
deriving DecidableEq

/-- regexpMatchingEngine.compile from src/rule/engine_regexp.go, with the
crc64 checksum and the underlying ladon regex compiler as function
parameters.  Returns the updated engine state and the error, mirroring the
receiver mutation of the source. -/
def engineCompile {M : Type} (crc : GoStr → Nat)
    (compileRegex : GoStr → Char → Char → Except String M)
    (re : RegexpMatchingEngine M) (pattern : GoStr) :
    RegexpMatchingEngine M × Option CompileErr :=
  let re := if re.table then re else {re with table := true}
  let checksum := crc pattern
  if checksum ≠ re.checksum then
    match compilePrepass pattern with
    | .error e => (re, some e)
    | .ok (p2, startDelim, endDelim) =>
      match compileRegex p2 startDelim endDelim with
      | .error e => (re, some (.regexErr e))
      | .ok compiled =>
        ({re with compiled := some compiled, checksum := checksum}, none)
  else
    (re, none)

/-- The four-step delimiter algorithm exactly as the claim states it:
(a) rewrite both doubled delimiters to sentinels, (b) if both sentinels are
present the active pair is the sentinel pair, else (c) advanced features
fail compilation, else (d) the plain pair is active. -/
def compilePrepassClaimed (pattern : GoStr) : Except CompileErr (GoStr × Char × Char) :=
  let p2 := replacePair '>' '>' '»' (replacePair '<' '<' '«' pattern)
  if p2.contains '«' && p2.contains '»' then .ok (p2, '«', '»')
  else if containsL (toG "(?>") p2 || containsL (toG "(?<") p2 then
    .error (.mustSwitchDelimiters p2)
  else .ok (p2, '<', '>')

/-- The amended delimiter algorithm: (a) as claimed, but each doubled
delimiter independently switches only its own side to the sentinel, the
sentinel pair is adopted only inside the advanced-feature branch, and a
pattern with advanced features fails unless both sentinel characters occur
in the rewritten pattern. -/
def compilePrepassAmended (pattern : GoStr) : Except CompileErr (GoStr × Char × Char) :=
  let hadLt := containsL (toG "<<") pattern
  let p1 := replacePair '<' '<' '«' pattern
  let hadGt := containsL (toG ">>") p1
  let p2 := replacePair '>' '>' '»' p1
  if containsL (toG "(?>") p2 || containsL (toG "(?<") p2 then
    if p2.contains '«' && p2.contains '»' then .ok (p2, '«', '»')
    else .error (.mustSwitchDelimiters p2)
  else
    .ok (p2, if hadLt then '«' else '<', if hadGt then '»' else '>')

theorem replacePair_of_not_contains (x y r : Char) :
    ∀ (s : GoStr), containsL [x, y] s = false → replacePair x y r s = s
  | [], _ => rfl
  | [a], _ => rfl
  | a :: b :: rest, h => by
    have hpre : [x, y].isPrefixOf (a :: b :: rest) = false ∧
        containsL [x, y] (b :: rest) = false := by
      have : containsL [x, y] (a :: b :: rest)
          = ([x, y].isPrefixOf (a :: b :: rest) || containsL [x, y] (b :: rest)) := rfl
      rw [this] at h
      exact Bool.or_eq_false_iff.mp h
    have hne : ¬(a = x ∧ b = y) := by
      rintro ⟨rfl, rfl⟩
      have : [a, b].isPrefixOf (a :: b :: rest) = true := by
        simp [List.isPrefixOf]
      rw [this] at hpre
      exact Bool.true_eq_false.mp hpre.1
    show (if a = x ∧ b = y then r :: replacePair x y r rest
        else a :: replacePair x y r (b :: rest)) = a :: b :: rest
    rw [if_neg hne]
    rw [replacePair_of_not_contains x y r (b :: rest) hpre.2]

theorem table_update_self {M : Type} (st : RegexpMatchingEngine M)
    (h : st.table = true) : ({st with table := true} : RegexpMatchingEngine M) = st := by
  cases st
  simp_all

theorem engineCompile_eq {M : Type} (crc : GoStr → Nat)
    (cr : GoStr → Char → Char → Except String M)
    (st : RegexpMatchingEngine M) (p : GoStr) :
    engineCompile crc cr st p
      = (if crc p ≠ st.checksum then
          match compilePrepass p with
          | .error e => (({st with table := true} : RegexpMatchingEngine M), some e)
          | .ok (p2, startDelim, endDelim) =>
            match cr p2 startDelim endDelim with
            | .error e => (({st with table := true} : RegexpMatchingEngine M),
                some (.regexErr e))
            | .ok m =>
              ({st with compiled := some m, checksum := crc p, table := true}, none)
        else (({st with table := true} : RegexpMatchingEngine M), none)) := by
  rcases st with ⟨c, ck, t⟩
  cases t <;> rfl

/-- C5 counterexample: a pattern containing only the doubled start
delimiter and no advanced feature compiles with the mixed pair («, >)
rather than the plain pair the claim asserts, and a pattern containing
both sentinel characters literally (with no doubled delimiters and no
advanced features) compiles with the plain pair rather than the sentinel
pair of step (b). -/
theorem c5_delimiter_prepass_counterexample :
    compilePrepass (toG "a<<b") = .ok (toG "a«b", '«', '>')
    ∧ compilePrepassClaimed (toG "a<<b") = .ok (toG "a«b", '<', '>')
    ∧ compilePrepass (toG "«»") = .ok (toG "«»", '<', '>')
    ∧ compilePrepassClaimed (toG "«»") = .ok (toG "«»", '«', '»') := by
  refine ⟨by decide, by decide, by decide, by decide⟩

/-- C5 (amended): the delimiter pre-pass rewrites each doubled delimiter
to its sentinel and switches only that side of the active pair to the
sentinel; when the rewritten pattern still contains an advanced-feature
opener, the sentinel pair is adopted if both sentinel characters occur,
and compilation fails with the must-switch-delimiters error otherwise. -/
theorem c5_delimiter_prepass_amended (p : GoStr) :
    compilePrepass p = compilePrepassAmended p := by
  unfold compilePrepass compilePrepassAmended
  cases hLt : containsL (toG "<<") p with
  | true =>
    cases hGt : containsL (toG ">>") (replacePair '<' '<' '«' p) with
    | true => simp [hLt, hGt]
    | false =>
      have hid2 := replacePair_of_not_contains '>' '>' '»'
        (replacePair '<' '<' '«' p) hGt
      simp [hLt, hGt, hid2]
  | false =>
    have hid := replacePair_of_not_contains '<' '<' '«' p hLt
    cases hGt : containsL (toG ">>") p with
    | true => simp [hLt, hGt, hid]
    | false =>
      have hid2 := replacePair_of_not_contains '>' '>' '»' p hGt
      simp [hLt, hGt, hid, hid2]

/-- C6: the engine cache is updated only by a successful compilation: a
failing compile leaves checksum and compiled matcher untouched and a
repeat call with the same pattern recompiles and fails identically, while
a call whose checksum matches the cached one returns without error, leaves
the cached matcher in place, and never consults the regex compiler. -/
theorem c6_compile_cache_discipline {M : Type} :
    (∀ (crc : GoStr → Nat) (cr : GoStr → Char → Char → Except String M)
        (st st' : RegexpMatchingEngine M) (p : GoStr) (e : CompileErr),
      engineCompile crc cr st p = (st', some e) →
        st'.checksum = st.checksum ∧ st'.compiled = st.compiled
          ∧ engineCompile crc cr st' p = (st', some e))
    ∧ (∀ (crc : GoStr → Nat) (cr cr' : GoStr → Char → Char → Except String M)
        (st : RegexpMatchingEngine M) (p : GoStr),
      crc p = st.checksum →
        engineCompile crc cr st p = ({st with table := true}, none)
          ∧ engineCompile crc cr st p = engineCompile crc cr' st p) := by
  constructor
  · intro crc cr st st' p e hrun
    rw [engineCompile_eq] at hrun
    by_cases hck : crc p = st.checksum
    · rw [if_neg (by simp [hck])] at hrun
      exact absurd (congrArg Prod.snd hrun) (by simp)
    · rw [if_pos hck] at hrun
      cases hpre : compilePrepass p with
      | error e2 =>
        simp only [hpre] at hrun
        have hst' : st' = ({st with table := true} : RegexpMatchingEngine M) :=
          (congrArg Prod.fst hrun).symm
        have he : some e2 = some e := congrArg Prod.snd hrun
        have he2 : e2 = e := Option.some.inj he
        subst hst'
        subst he2
        refine ⟨rfl, rfl, ?_⟩
        rw [engineCompile_eq, if_pos (by simpa using hck)]
        simp only [hpre]
      | ok triple =>
        obtain ⟨p2, startDelim, endDelim⟩ := triple
        simp only [hpre] at hrun
        cases hcr : cr p2 startDelim endDelim with
        | error e3 =>
          simp only [hcr] at hrun
          have hst' : st' = ({st with table := true} : RegexpMatchingEngine M) :=
            (congrArg Prod.fst hrun).symm
          have he : some (CompileErr.regexErr e3) = some e := congrArg Prod.snd hrun
          have he2 : CompileErr.regexErr e3 = e := Option.some.inj he
          subst hst'
          subst he2
          refine ⟨rfl, rfl, ?_⟩
          rw [engineCompile_eq, if_pos (by simpa using hck)]
          simp only [hpre, hcr]
        | ok m =>
          simp only [hcr] at hrun
          exact absurd (congrArg Prod.snd hrun) (by simp)
  · intro crc cr cr' st p hck
    constructor
    · rw [engineCompile_eq, if_neg (by simp [hck])]
    · rw [engineCompile_eq, engineCompile_eq,
        if_neg (by simp [hck]), if_neg (by simp [hck])]

/-- Witness for c6_compile_cache_discipline at concrete inputs: a failing
regex compiler leaves the cache untouched and fails again, and a matching
checksum is served without consulting the compiler. -/
theorem c6_compile_cache_discipline_witness :
    (engineCompile (M := Nat) (fun s => s.length) (fun _ _ _ => .error "boom")
        ⟨none, 0, false⟩ (toG "x")
      = (⟨none, 0, true⟩, some (.regexErr "boom"))
    ∧ (⟨none, 0, true⟩ : RegexpMatchingEngine Nat).checksum = 0
    ∧ engineCompile (M := Nat) (fun s => s.length) (fun _ _ _ => .error "boom")
        ⟨none, 0, true⟩ (toG "x")
      = (⟨none, 0, true⟩, some (.regexErr "boom")))
    ∧ engineCompile (M := Nat) (fun s => s.length) (fun _ _ _ => .error "boom")
        ⟨some 7, 1, true⟩ (toG "y")
      = (⟨some 7, 1, true⟩, none) := by
  constructor
  · have hrun : engineCompile (M := Nat) (fun s => s.length)
        (fun _ _ _ => .error "boom") ⟨none, 0, false⟩ (toG "x")
        = (⟨none, 0, true⟩, some (.regexErr "boom")) := by decide
    have h := (c6_compile_cache_discipline (M := Nat)).1
      (fun s => s.length) (fun _ _ _ => .error "boom")
      ⟨none, 0, false⟩ ⟨none, 0, true⟩ (toG "x") (.regexErr "boom") hrun
    exact ⟨hrun, h.1, h.2.2⟩
  · have h := (c6_compile_cache_discipline (M := Nat)).2
      (fun s => s.length) (fun _ _ _ => .error "boom") (fun _ _ _ => .error "boom")
      ⟨some 7, 1, true⟩ (toG "y") (by decide)
    exact h.1

end RuleEngine

namespace Authn

/-!
Model of src/pipeline/authn/authenticator_pre9421.go, the message-signing
authenticator.  External collaborators (the ULID parser, URL parser and
credential verifier) are function parameters; compiled issuer regexes are
modelled as predicates; times are in integer milliseconds, so the 30s
jitter is 30000 and the configured maximum challenge age is given in
milliseconds; request headers and query parameters are lookup functions
standing for http.Header.Get and url.Values. -/

def challenge : String := "challenge"

def defaultSignatureHeader : String := "x-jwks-signature"

def defaultKidHeader : String := "x-jwks-signature-kid"

def defaultIssuerHeader : String := "x-jwks-issuer"

def regexPref : String := "regex:"

def regexpPref : String := "regexp:"

def insecurePref : String := "http://"

structure Headers where
  Signature : Option String
  Kid : Option String
  Issuer : Option String

structure Authority where
  Headers : Headers
  AllowedIssuers : List String
  allowedIssuersRegex : List (String → Bool)

structure AuthenticatorPre9421Config where
  Authorities : List Authority
  MaxChallengeAge : String
  AllowInsecure : Bool

/-- Go strings.HasPrefix, computed on the character lists so that concrete
instances evaluate inside the kernel. -/
def hasPref (s pre : String) : Bool := pre.data.isPrefixOf s.data

/-- cmp.Or for strings: the first non-zero value. -/
def cmpOr (a b : String) : String := if a = "" then b else a

/-- The header name an authority reads, mirroring the nil-pointer check
plus cmp.Or fallback of the source. -/
def headerName (conf : Option String) (dflt : String) : String :=
  match conf with
  | none => dflt
  | some s => cmpOr s dflt

/-- AuthenticatorPre9421Config.allowedIssuer from
src/pipeline/authn/authenticator_pre9421.go (lines 188-212).  Note that it
ranges over every authority of the configuration, and that an authority's
literal entries are consulted only when that authority has no compiled
regex entries. -/
def allowedIssuer (x : AuthenticatorPre9421Config) (issuer : String) : Bool :=
  if x.Authorities.isEmpty then false
  else if hasPref issuer insecurePref && !x.AllowInsecure then false
  else
    x.Authorities.any fun authority =>
      if authority.AllowedIssuers.isEmpty then false
      else
        (authority.allowedIssuersRegex.isEmpty
            && authority.AllowedIssuers.contains issuer)
          || authority.allowedIssuersRegex.any fun rx => rx issuer

/-- The inbound request as the authenticator observes it: whether the body
probe found bytes, the buffered body content, the raw query string, query
parameter lookup, and header lookup. -/
structure AuthnRequest where
  hasBody : Bool
  bodyContent : String
  rawQuery : String
  query : String → Option String
  header : String → String

/-- External collaborators of Authenticate: the clock, the ULID challenge
parser (returning the embedded millisecond timestamp), the URL parser and
the credential verifier (none means the signature verified). -/
structure AuthnDeps where
  now : Int
  parseChallenge : String → Option Int
  parseURLs : String → Except String (List String)
  verify : Option (List String) → String → String → String → String → Option String

inductive AuthnOutcome where
  | notResponsible
  | success
  | unauthorized (payload : String) (trace : List String)
deriving DecidableEq

/-- The authority loop of AuthenticatorPre9421.Authenticate (lines
139-186).  The accumulated error state is the list of error causes held by
the err variable: the stderrors.Join of a URL-parse error appends to it,
but the verifier call assigns the err variable afresh, so the joined value
(_errsJoined) is dead and the state after a failed verification is the
single verification failure. -/
def authLoop (cf : AuthenticatorPre9421Config) (deps : AuthnDeps)
    (r : AuthnRequest) (body : String) :
    List Authority → List String → AuthnOutcome
  | [], errs => .unauthorized body errs
  | authority :: rest, errs =>
    let signature := r.header (headerName authority.Headers.Signature defaultSignatureHeader)
    if signature = "" then authLoop cf deps r body rest errs
    else
      let kid := r.header (headerName authority.Headers.Kid defaultKidHeader)
      if kid = "" then authLoop cf deps r body rest errs
      else
        let issuer := r.header (headerName authority.Headers.Issuer defaultIssuerHeader)
        if issuer = "" then authLoop cf deps r body rest errs
        else
          if !allowedIssuer cf issuer then authLoop cf deps r body rest errs
          else
            let issuerUrl := issuer ++ "/.well-known/jwks.json"
            let _errsJoined : List String :=
              match deps.parseURLs issuerUrl with
              | .ok _ => errs
              | .error jerr => errs ++ [jerr]
            let jwksu : Option (List String) :=
              match deps.parseURLs issuerUrl with
              | .ok u => some u
              | .error _ => none
            match deps.verify jwksu issuer kid signature body with
            | none => .success
            | some verr => authLoop cf deps r body rest [verr]

/-- AuthenticatorPre9421.Authenticate from
src/pipeline/authn/authenticator_pre9421.go, after configuration loading:
body/challenge extraction, the freshness check, and the authority loop. -/
def Authenticate (cf : AuthenticatorPre9421Config) (maxChallengeAge : Int)
    (deps : AuthnDeps) (r : AuthnRequest) : AuthnOutcome :=
  if cf.Authorities.isEmpty then .notResponsible
  else
    let st : Bool × Option Int × String :=
      if r.hasBody then (false, none, r.bodyContent)
      else if r.rawQuery ≠ "" then
        (if maxChallengeAge > 0 then
          match r.query challenge with
          | some v =>
            match deps.parseChallenge v with
            | some t => (false, some t, r.rawQuery)
            | none => (true, none, r.rawQuery)
          | none => (true, none, r.rawQuery)
        else (false, none, r.rawQuery))
      else (true, none, "")
    if st.1 then .notResponsible
    else
      match st.2.1 with
      | some t =>
        if maxChallengeAge > 0 ∧ deps.now - t > maxChallengeAge + 30000 then
          .notResponsible
        else authLoop cf deps r st.2.2 cf.Authorities []
      | none => authLoop cf deps r st.2.2 cf.Authorities []

theorem authLoop_nil (cf : AuthenticatorPre9421Config) (deps : AuthnDeps)
    (r : AuthnRequest) (body : String) (errs : List String) :
    authLoop cf deps r body [] errs = .unauthorized body errs := rfl

theorem authLoop_cons (cf : AuthenticatorPre9421Config) (deps : AuthnDeps)
    (r : AuthnRequest) (body : String) (a : Authority) (rest : List Authority)
    (errs : List String) :
    authLoop cf deps r body (a :: rest) errs
      = (if r.header (headerName a.Headers.Signature defaultSignatureHeader) = ""
          then authLoop cf deps r body rest errs
        else if r.header (headerName a.Headers.Kid defaultKidHeader) = ""
          then authLoop cf deps r body rest errs
        else if r.header (headerName a.Headers.Issuer defaultIssuerHeader) = ""
          then authLoop cf deps r body rest errs
        else if !allowedIssuer cf (r.header (headerName a.Headers.Issuer defaultIssuerHeader))
          then authLoop cf deps r body rest errs
        else
          match deps.verify
              (match deps.parseURLs
                  (r.header (headerName a.Headers.Issuer defaultIssuerHeader)
                    ++ "/.well-known/jwks.json") with
                | .ok u => some u
                | .error _ => none)
              (r.header (headerName a.Headers.Issuer defaultIssuerHeader))
              (r.header (headerName a.Headers.Kid defaultKidHeader))
              (r.header (headerName a.Headers.Signature defaultSignatureHeader))
              body with
          | none => .success
          | some verr => authLoop cf deps r body rest [verr]) := rfl

theorem authLoop_success_mem (cf : AuthenticatorPre9421Config) (deps : AuthnDeps)
    (r : AuthnRequest) (body : String) :
    ∀ (auths : List Authority) (errs : List String),
      authLoop cf deps r body auths errs = .success →
      ∃ a ∈ auths,
        r.header (headerName a.Headers.Signature defaultSignatureHeader) ≠ ""
        ∧ r.header (headerName a.Headers.Kid defaultKidHeader) ≠ ""
        ∧ r.header (headerName a.Headers.Issuer defaultIssuerHeader) ≠ ""
        ∧ allowedIssuer cf (r.header (headerName a.Headers.Issuer defaultIssuerHeader)) = true
  | [], errs, h => by
    rw [authLoop_nil] at h
    exact absurd h (by simp)
  | a :: rest, errs, h => by
    rw [authLoop_cons] at h
    by_cases h1 : r.header (headerName a.Headers.Signature defaultSignatureHeader) = ""
    · rw [if_pos h1] at h
      obtain ⟨a2, hm, hp⟩ := authLoop_success_mem cf deps r body rest errs h
      exact ⟨a2, List.mem_cons_of_mem _ hm, hp⟩
    · rw [if_neg h1] at h
      by_cases h2 : r.header (headerName a.Headers.Kid defaultKidHeader) = ""
      · rw [if_pos h2] at h
        obtain ⟨a2, hm, hp⟩ := authLoop_success_mem cf deps r body rest errs h
        exact ⟨a2, List.mem_cons_of_mem _ hm, hp⟩
      · rw [if_neg h2] at h
        by_cases h3 : r.header (headerName a.Headers.Issuer defaultIssuerHeader) = ""
        · rw [if_pos h3] at h
          obtain ⟨a2, hm, hp⟩ := authLoop_success_mem cf deps r body rest errs h
          exact ⟨a2, List.mem_cons_of_mem _ hm, hp⟩
        · rw [if_neg h3] at h
          by_cases h4 : (!allowedIssuer cf
              (r.header (headerName a.Headers.Issuer defaultIssuerHeader))) = true
          · rw [if_pos h4] at h
            obtain ⟨a2, hm, hp⟩ := authLoop_success_mem cf deps r body rest errs h
            exact ⟨a2, List.mem_cons_of_mem _ hm, hp⟩
          · rw [if_neg h4] at h
            have hallow : allowedIssuer cf
                (r.header (headerName a.Headers.Issuer defaultIssuerHeader)) = true := by
              revert h4
              cases allowedIssuer cf
                (r.header (headerName a.Headers.Issuer defaultIssuerHeader)) <;> simp
            cases hv : deps.verify
                (match deps.parseURLs
                    (r.header (headerName a.Headers.Issuer defaultIssuerHeader)
                      ++ "/.well-known/jwks.json") with
                  | .ok u => some u
                  | .error _ => none)
                (r.header (headerName a.Headers.Issuer defaultIssuerHeader))
                (r.header (headerName a.Headers.Kid defaultKidHeader))
                (r.header (headerName a.Headers.Signature defaultSignatureHeader))
                body with
            | none =>
              exact ⟨a, List.mem_cons_self a rest, h1, h2, h3, hallow⟩
            | some verr =>
              rw [hv] at h
              obtain ⟨a2, hm, hp⟩ := authLoop_success_mem cf deps r body rest [verr] h
              exact ⟨a2, List.mem_cons_of_mem _ hm, hp⟩

theorem authLoop_unauthorized_shape (cf : AuthenticatorPre9421Config)
    (deps : AuthnDeps) (r : AuthnRequest) (body : String) :
    ∀ (auths : List Authority) (errs : List String), errs.length ≤ 1 →
      ∀ (p : String) (tr : List String),
        authLoop cf deps r body auths errs = .unauthorized p tr →
        p = body ∧ tr.length ≤ 1
  | [], errs, hlen, p, tr, h => by
    rw [authLoop_nil] at h
    injection h with h1 h2
    exact ⟨h1.symm, h2 ▸ hlen⟩
  | a :: rest, errs, hlen, p, tr, h => by
    rw [authLoop_cons] at h
    by_cases h1 : r.header (headerName a.Headers.Signature defaultSignatureHeader) = ""
    · rw [if_pos h1] at h
      exact authLoop_unauthorized_shape cf deps r body rest errs hlen p tr h
    · rw [if_neg h1] at h
      by_cases h2 : r.header (headerName a.Headers.Kid defaultKidHeader) = ""
      · rw [if_pos h2] at h
        exact authLoop_unauthorized_shape cf deps r body rest errs hlen p tr h
      · rw [if_neg h2] at h
        by_cases h3 : r.header (headerName a.Headers.Issuer defaultIssuerHeader) = ""
        · rw [if_pos h3] at h
          exact authLoop_unauthorized_shape cf deps r body rest errs hlen p tr h
        · rw [if_neg h3] at h
          by_cases h4 : (!allowedIssuer cf
              (r.header (headerName a.Headers.Issuer defaultIssuerHeader))) = true
          · rw [if_pos h4] at h
            exact authLoop_unauthorized_shape cf deps r body rest errs hlen p tr h
          · rw [if_neg h4] at h
            cases hv : deps.verify
                (match deps.parseURLs
                    (r.header (headerName a.Headers.Issuer defaultIssuerHeader)
                      ++ "/.well-known/jwks.json") with
                  | .ok u => some u
                  | .error _ => none)
                (r.header (headerName a.Headers.Issuer defaultIssuerHeader))
                (r.header (headerName a.Headers.Kid defaultKidHeader))
                (r.header (headerName a.Headers.Signature defaultSignatureHeader))
                body with
            | none =>
              rw [hv] at h
              exact absurd h (by simp)
            | some verr =>
              rw [hv] at h
              exact authLoop_unauthorized_shape cf deps r body rest [verr]
                (by simp) p tr h

theorem Authenticate_outcome_cases (cf : AuthenticatorPre9421Config)
    (maxAge : Int) (deps : AuthnDeps) (r : AuthnRequest)
    (hA : ¬cf.Authorities.isEmpty = true) :
    Authenticate cf maxAge deps r = .notResponsible
    ∨ ∃ body, body = (if r.hasBody then r.bodyContent else r.rawQuery)
        ∧ Authenticate cf maxAge deps r = authLoop cf deps r body cf.Authorities [] := by
  unfold Authenticate
  rw [if_neg hA]
  by_cases hb : r.hasBody
  · rw [if_pos hb]
    right
    exact ⟨r.bodyContent, by rw [if_pos hb], rfl⟩
  · rw [if_neg hb]
    by_cases hq : r.rawQuery ≠ ""
    · rw [if_pos hq]
      by_cases hm : maxAge > 0
      · rw [if_pos hm]
        cases hqc : r.query challenge with
        | none => left; rfl
        | some v =>
          dsimp only []
          cases hpc : deps.parseChallenge v with
          | none => left; rfl
          | some t =>
            by_cases hexp : maxAge > 0 ∧ deps.now - t > maxAge + 30000
            · left
              dsimp only []
              rw [if_pos hexp]
              rfl
            · right
              refine ⟨r.rawQuery, by rw [if_neg hb], ?_⟩
              dsimp only []
              rw [if_neg hexp]
              rfl
      · rw [if_neg hm]
        right
        exact ⟨r.rawQuery, by rw [if_neg hb], rfl⟩
    · rw [if_neg hq]
      left
      rfl

theorem allowedIssuer_iff (cf : AuthenticatorPre9421Config) (issuer : String) :
    allowedIssuer cf issuer = true
      ↔ (cf.Authorities ≠ []
          ∧ ¬(hasPref issuer insecurePref = true ∧ cf.AllowInsecure = false)
          ∧ ∃ a ∈ cf.Authorities, a.AllowedIssuers ≠ []
              ∧ ((a.allowedIssuersRegex = [] ∧ issuer ∈ a.AllowedIssuers)
                 ∨ ∃ rx ∈ a.allowedIssuersRegex, rx issuer = true)) := by
  unfold allowedIssuer
  by_cases hA : cf.Authorities.isEmpty
  · rw [if_pos hA]
    rw [List.isEmpty_iff] at hA
    simp [hA]
  · rw [if_neg hA]
    rw [List.isEmpty_iff] at hA
    by_cases hI : (hasPref issuer insecurePref && !cf.AllowInsecure) = true
    · rw [if_pos hI]
      rw [Bool.and_eq_true, Bool.not_eq_true'] at hI
      simp [hA, hI]
    · rw [if_neg hI]
      rw [Bool.and_eq_true] at hI
      push_neg at hI
      constructor
      · intro h
        rw [List.any_eq_true] at h
        obtain ⟨a, hm, ha⟩ := h
        refine ⟨hA, ?_, a, hm, ?_⟩
        · rintro ⟨hs, hin⟩
          have h5 := hI hs
          rw [hin] at h5
          exact h5 rfl
        · by_cases hE : a.AllowedIssuers.isEmpty
          · rw [if_pos hE] at ha
            exact absurd ha (by simp)
          · rw [if_neg hE] at ha
            rw [List.isEmpty_iff] at hE
            refine ⟨hE, ?_⟩
            rw [Bool.or_eq_true, Bool.and_eq_true] at ha
            rcases ha with ⟨hre, hco⟩ | hany
            · left
              rw [List.isEmpty_iff] at hre
              refine ⟨hre, ?_⟩
              simpa using hco
            · right
              rw [List.any_eq_true] at hany
              exact hany
      · rintro ⟨-, -, a, hm, hne, hcase⟩
        rw [List.any_eq_true]
        refine ⟨a, hm, ?_⟩
        rw [if_neg (by simpa [List.isEmpty_iff] using hne)]
        rw [Bool.or_eq_true, Bool.and_eq_true]
        rcases hcase with ⟨hre, hmem⟩ | ⟨rx, hrx, hv⟩
        · left
          refine ⟨by simp [hre], by simpa using hmem⟩
        · right
          rw [List.any_eq_true]
          exact ⟨rx, hrx, hv⟩

/-- The per-authority acceptance predicate exactly as claim C2 states it:
the issuer equals one of this authority's allow-list entries literally or
matches one of its compiled regexes (both kinds consulted), and insecure
issuers are rejected unless allow_insecure is set. -/
def claimedAuthorityAllows (cf : AuthenticatorPre9421Config) (a : Authority)
    (issuer : String) : Bool :=
  (a.AllowedIssuers.contains issuer || a.allowedIssuersRegex.any fun rx => rx issuer)
    && !(hasPref issuer insecurePref && !cf.AllowInsecure)

/-- Dependencies whose verifier always accepts. -/
def depsOK : AuthnDeps :=
  { now := 0, parseChallenge := fun _ => none,
    parseURLs := fun _ => .ok [], verify := fun _ _ _ _ _ => none }

/-- Dependencies whose verifier always fails, tagging the issuer it was
given. -/
def depsFail : AuthnDeps :=
  { now := 0, parseChallenge := fun _ => none,
    parseURLs := fun _ => .ok [],
    verify := fun _ iss _ _ _ => some ("verify failed for " ++ iss) }

/-- An authority holding one literal allow-list entry and one compiled
regex entry (the regex matching exactly https://other, as Config compiles
the anchored entry regex:^https://other$). -/
def authorityMixed : Authority :=
  { Headers := ⟨none, none, none⟩,
    AllowedIssuers := ["https://good", "regex:^https://other$"],
    allowedIssuersRegex := [fun s => s == "https://other"] }

def cfgMixed : AuthenticatorPre9421Config :=
  { Authorities := [authorityMixed], MaxChallengeAge := "", AllowInsecure := false }

/-- A request with a body whose headers name the literal entry of
authorityMixed as issuer. -/
def reqGood : AuthnRequest :=
  { hasBody := true, bodyContent := "body", rawQuery := "",
    query := fun _ => none,
    header := fun n =>
      if n = defaultSignatureHeader then "sig"
      else if n = defaultKidHeader then "kid"
      else if n = defaultIssuerHeader then "https://good"
      else "" }

def authorityX : Authority :=
  { Headers := ⟨none, none, none⟩, AllowedIssuers := ["https://x"],
    allowedIssuersRegex := [] }

def authorityY : Authority :=
  { Headers := ⟨none, none, none⟩, AllowedIssuers := ["https://y"],
    allowedIssuersRegex := [] }

def cfgTwo : AuthenticatorPre9421Config :=
  { Authorities := [authorityX, authorityY], MaxChallengeAge := "",
    AllowInsecure := false }

/-- A request whose issuer header names the second authority's allow-list
entry while the first authority's headers are all present. -/
def reqY : AuthnRequest :=
  { hasBody := true, bodyContent := "body", rawQuery := "",
    query := fun _ => none,
    header := fun n =>
      if n = defaultSignatureHeader then "sig"
      else if n = defaultKidHeader then "kid"
      else if n = defaultIssuerHeader then "https://y"
      else "" }

/-- C2 counterexample.  First: the issuer equals a literal entry of the
only authority, so the claimed per-authority predicate accepts, yet the
code rejects it (the authority has compiled regex entries, so its literal
entries are not consulted) and Authenticate fails Unauthorized even with a
verifier that accepts everything.  Second: the issuer is absent from the
first authority's allow-list, so by the claim it is not accepted at that
authority, yet Authenticate succeeds there because allowedIssuer consults
every authority's allow-list. -/
theorem c2_issuer_allowlist_counterexample :
    (claimedAuthorityAllows cfgMixed authorityMixed "https://good" = true
      ∧ allowedIssuer cfgMixed "https://good" = false
      ∧ Authenticate cfgMixed 0 depsOK reqGood = .unauthorized "body" [])
    ∧ (claimedAuthorityAllows cfgTwo authorityX "https://y" = false
      ∧ Authenticate cfgTwo 0 depsOK reqY = .success) := by
  exact ⟨⟨by decide, by decide, by decide⟩, ⟨by decide, by decide⟩⟩

/-- C2 (amended): Authenticate accepts an issuer only when allowedIssuer
over the whole configuration accepts it; allowedIssuer accepts exactly
when some authority with a non-empty allow-list either has no compiled
regex entries and lists the issuer literally, or has a compiled regex
matching it (literal entries of an authority holding compiled regexes are
not consulted), never accepting an insecure http issuer unless
allow_insecure is set. -/
theorem c2_issuer_allowlist_amended :
    (∀ (cf : AuthenticatorPre9421Config) (maxAge : Int) (deps : AuthnDeps)
        (r : AuthnRequest),
      Authenticate cf maxAge deps r = .success →
      ∃ a ∈ cf.Authorities,
        r.header (headerName a.Headers.Signature defaultSignatureHeader) ≠ ""
        ∧ r.header (headerName a.Headers.Kid defaultKidHeader) ≠ ""
        ∧ r.header (headerName a.Headers.Issuer defaultIssuerHeader) ≠ ""
        ∧ allowedIssuer cf (r.header (headerName a.Headers.Issuer defaultIssuerHeader)) = true)
    ∧ (∀ (cf : AuthenticatorPre9421Config) (issuer : String),
        allowedIssuer cf issuer = true
          ↔ (cf.Authorities ≠ []
              ∧ ¬(hasPref issuer insecurePref = true ∧ cf.AllowInsecure = false)
              ∧ ∃ a ∈ cf.Authorities, a.AllowedIssuers ≠ []
                  ∧ ((a.allowedIssuersRegex = [] ∧ issuer ∈ a.AllowedIssuers)
                     ∨ ∃ rx ∈ a.allowedIssuersRegex, rx issuer = true)))
    ∧ (∀ (cf : AuthenticatorPre9421Config) (issuer : String),
        hasPref issuer insecurePref = true → cf.AllowInsecure = false →
        allowedIssuer cf issuer = false) := by
  refine ⟨?_, allowedIssuer_iff, ?_⟩
  · intro cf maxAge deps r h
    by_cases hA : cf.Authorities.isEmpty
    · unfold Authenticate at h
      rw [if_pos hA] at h
      exact absurd h (by simp)
    · rcases Authenticate_outcome_cases cf maxAge deps r hA with hcase | ⟨body, -, hcase⟩
      · rw [hcase] at h
        exact absurd h (by simp)
      · rw [hcase] at h
        exact authLoop_success_mem cf deps r body cf.Authorities [] h
  · intro cf issuer h1 h2
    unfold allowedIssuer
    by_cases hA : cf.Authorities.isEmpty
    · rw [if_pos hA]
    · rw [if_neg hA, if_pos (by simp [h1, h2])]

/-- Witness for c2_issuer_allowlist_amended: the acceptance clause applied
to a concrete successful run. -/
theorem c2_issuer_allowlist_amended_witness :
    ∃ a ∈ cfgTwo.Authorities,
      reqY.header (headerName a.Headers.Signature defaultSignatureHeader) ≠ ""
      ∧ reqY.header (headerName a.Headers.Kid defaultKidHeader) ≠ ""
      ∧ reqY.header (headerName a.Headers.Issuer defaultIssuerHeader) ≠ ""
      ∧ allowedIssuer cfgTwo
          (reqY.header (headerName a.Headers.Issuer defaultIssuerHeader)) = true :=
  c2_issuer_allowlist_amended.1 cfgTwo 0 depsOK reqY (by decide)

def authorityI1 : Authority :=
  { Headers := ⟨none, none, some "x-issuer-1"⟩,
    AllowedIssuers := ["https://i1"], allowedIssuersRegex := [] }

def authorityI2 : Authority :=
  { Headers := ⟨none, none, some "x-issuer-2"⟩,
    AllowedIssuers := ["https://i2"], allowedIssuersRegex := [] }

def cfgBoth : AuthenticatorPre9421Config :=
  { Authorities := [authorityI1, authorityI2], MaxChallengeAge := "",
    AllowInsecure := false }

def cfgFirstOnly : AuthenticatorPre9421Config :=
  { Authorities := [authorityI1], MaxChallengeAge := "", AllowInsecure := false }

/-- A request supplying both authorities' issuer headers. -/
def reqBoth : AuthnRequest :=
  { hasBody := true, bodyContent := "hello", rawQuery := "",
    query := fun _ => none,
    header := fun n =>
      if n = defaultSignatureHeader then "sig"
      else if n = defaultKidHeader then "kid"
      else if n = "x-issuer-1" then "https://i1"
      else if n = "x-issuer-2" then "https://i2"
      else "" }

/-- C3 counterexample: with two authorities both attempted and both
failing verification, the final Unauthorized error carries only the second
authority's failure; running the first authority alone shows its attempt
does produce a distinct failure cause, which the joint run has lost
(overwritten), contradicting the claim that causes accumulate by joining
and every attempted authority's cause is retained. -/
theorem c3_error_accumulation_counterexample :
    Authenticate cfgBoth 0 depsFail reqBoth
      = .unauthorized "hello" ["verify failed for https://i2"]
    ∧ Authenticate cfgFirstOnly 0 depsFail reqBoth
      = .unauthorized "hello" ["verify failed for https://i1"] := by
  exact ⟨by decide, by decide⟩

/-- C3 (amended): an Unauthorized outcome of Authenticate always carries
the buffered body as the diagnostic payload, but the error state is not
accumulated by joining: each verification attempt overwrites it, so the
trace holds at most one cause (the last verification failure), and joined
URL-parsing errors never survive to the final error. -/
theorem c3_error_accumulation_amended :
    ∀ (cf : AuthenticatorPre9421Config) (maxAge : Int) (deps : AuthnDeps)
      (r : AuthnRequest) (p : String) (tr : List String),
      Authenticate cf maxAge deps r = .unauthorized p tr →
      p = (if r.hasBody then r.bodyContent else r.rawQuery) ∧ tr.length ≤ 1 := by
  intro cf maxAge deps r p tr h
  by_cases hA : cf.Authorities.isEmpty
  · unfold Authenticate at h
    rw [if_pos hA] at h
    exact absurd h (by simp)
  · rcases Authenticate_outcome_cases cf maxAge deps r hA with hcase | ⟨body, hbody, hcase⟩
    · rw [hcase] at h
      exact absurd h (by simp)
    · rw [hcase] at h
      have hshape := authLoop_unauthorized_shape cf deps r body cf.Authorities []
        (by simp) p tr h
      exact ⟨hshape.1.trans hbody, hshape.2⟩

/-- Witness for c3_error_accumulation_amended at the concrete two-authority
run. -/
theorem c3_error_accumulation_amended_witness :
    "hello" = (if reqBoth.hasBody then reqBoth.bodyContent else reqBoth.rawQuery)
    ∧ (["verify failed for https://i2"] : List String).length ≤ 1 :=
  c3_error_accumulation_amended cfgBoth 0 depsFail reqBoth
    "hello" ["verify failed for https://i2"] (by decide)

/-- C4: for a request without body but with query parameters, under a
positive configured maximum challenge age, a missing challenge parameter,
an unparsable challenge value, and a challenge older than the maximum age
plus the 30 second jitter each make Authenticate return NotResponsible. -/
theorem c4_challenge_freshness_not_responsible :
    ∀ (cf : AuthenticatorPre9421Config) (maxAge : Int) (deps : AuthnDeps)
      (r : AuthnRequest),
      r.hasBody = false → r.rawQuery ≠ "" → maxAge > 0 →
      ((r.query challenge = none →
          Authenticate cf maxAge deps r = .notResponsible)
      ∧ (∀ v, r.query challenge = some v → deps.parseChallenge v = none →
          Authenticate cf maxAge deps r = .notResponsible)
      ∧ (∀ v t, r.query challenge = some v → deps.parseChallenge v = some t →
          deps.now - t > maxAge + 30000 →
          Authenticate cf maxAge deps r = .notResponsible)) := by
  intro cf maxAge deps r hb hq hm
  by_cases hA : cf.Authorities.isEmpty
  · have hout : Authenticate cf maxAge deps r = .notResponsible := by
      unfold Authenticate
      rw [if_pos hA]
    exact ⟨fun _ => hout, fun _ _ _ => hout, fun _ _ _ _ _ => hout⟩
  · have hb2 : ¬(r.hasBody = true) := by simp [hb]
    refine ⟨?_, ?_, ?_⟩
    · intro hqc
      unfold Authenticate
      rw [if_neg hA, if_neg hb2, if_pos hq, if_pos hm, hqc]
      rfl
    · intro v hqc hpc
      unfold Authenticate
      rw [if_neg hA, if_neg hb2, if_pos hq, if_pos hm, hqc]
      dsimp only []
      rw [hpc]
      rfl
    · intro v t hqc hpc hexp
      unfold Authenticate
      rw [if_neg hA, if_neg hb2, if_pos hq, if_pos hm, hqc]
      dsimp only []
      rw [hpc]
      dsimp only []
      rw [if_pos (show maxAge > 0 ∧ deps.now - t > maxAge + 30000 from ⟨hm, hexp⟩)]
      rfl

/-- A bodyless request with query parameters and no challenge parameter. -/
def reqNoChal : AuthnRequest :=
  { hasBody := false, bodyContent := "", rawQuery := "a=1",
    query := fun _ => none, header := fun _ => "" }

/-- A bodyless request with query parameters and a challenge parameter. -/
def reqWithChal : AuthnRequest :=
  { hasBody := false, bodyContent := "", rawQuery := "a=1",
    query := fun n => if n = challenge then some "zz" else none,
    header := fun _ => "" }

/-- Dependencies whose challenge parser always fails. -/
def depsNoParse : AuthnDeps :=
  { now := 0, parseChallenge := fun _ => none,
    parseURLs := fun _ => .ok [], verify := fun _ _ _ _ _ => none }

/-- Dependencies whose challenge parser embeds timestamp zero while the
clock is far beyond the allowed age. -/
def depsOld : AuthnDeps :=
  { now := 100000, parseChallenge := fun _ => some 0,
    parseURLs := fun _ => .ok [], verify := fun _ _ _ _ _ => none }

/-- Witness for c4_challenge_freshness_not_responsible at concrete
requests: a missing, an unparsable, and an expired challenge. -/
theorem c4_challenge_freshness_not_responsible_witness :
    Authenticate cfgMixed 5000 depsNoParse reqNoChal = .notResponsible
    ∧ Authenticate cfgMixed 5000 depsNoParse reqWithChal = .notResponsible
    ∧ Authenticate cfgMixed 5000 depsOld reqWithChal = .notResponsible := by
  refine ⟨?_, ?_, ?_⟩
  · exact (c4_challenge_freshness_not_responsible cfgMixed 5000 depsNoParse
      reqNoChal rfl (by decide) (by decide)).1 rfl
  · exact (c4_challenge_freshness_not_responsible cfgMixed 5000 depsNoParse
      reqWithChal rfl (by decide) (by decide)).2.1 "zz" (by decide) rfl
  · exact (c4_challenge_freshness_not_responsible cfgMixed 5000 depsOld
      reqWithChal rfl (by decide) (by decide)).2.2 "zz" 0 (by decide) rfl
      (by decide)

end Authn

namespace Authz

/-!
Model of the remote_json authorizer (src/unnamed/part_000 and
src/unnamed/part_001).  The configuration merge, template engine, HMAC,
URL parsing, JWKS signer and HTTP client are function parameters; the
session's outbound header overrides are an association list with
set-replaces semantics mirroring http.Header.Set; request headers are an
association list to which Header.Add appends. -/

/-- A Go error value: a message, possibly wrapping a cause. -/
inductive GoErr where
  | msg (m : String)
  | wrapped (m : String) (cause : GoErr)
deriving DecidableEq

/-- github.com/pkg/errors Wrap: annotates a non-nil error and returns nil
when the error is nil. -/
def errorsWrap : Option GoErr → String → Option GoErr
  | none, _ => none
  | some e, m => some (.wrapped m e)

structure SignedPayloadRemoteJsonConfiguration where
  Header : String
  SharedKey : String
  JWKSURL : String
  Issuer : String
deriving DecidableEq

structure AuthorizerRemoteJSONRetryConfiguration where
  Timeout : String
  MaxWait : String
deriving DecidableEq

structure AuthorizerRemoteJSONConfiguration where
  Remote : String
  Headers : List (String × String)
  Payload : String
  ForwardResponseHeadersToUpstream : List String
  Retry : Option AuthorizerRemoteJSONRetryConfiguration
  SignedPayload : Option SignedPayloadRemoteJsonConfiguration
deriving DecidableEq

structure HttpRequest where
  method : String
  url : String
  body : String
  headers : List (String × String)
deriving DecidableEq

structure HttpResponse where
  StatusCode : Nat
  header : String → String

/-- http.Header.Add: appends the value. -/
def headerAdd (req : HttpRequest) (k v : String) : HttpRequest :=
  { req with headers := req.headers ++ [(k, v)] }

/-- http.Header.Set: replaces any value under the key. -/
def headerSet (req : HttpRequest) (k v : String) : HttpRequest :=
  { req with headers := (req.headers.filter fun p => p.1 ≠ k) ++ [(k, v)] }

/-- The session's outbound header overrides, with SetHeader replacing. -/
def sessionSetHeader (s : List (String × String)) (k v : String) :
    List (String × String) :=
  (s.filter fun p => p.1 ≠ k) ++ [(k, v)]

def sessionGet (s : List (String × String)) (k : String) : Option String :=
  (s.find? fun p => p.1 = k).map fun p => p.2

/-- External collaborators of the authorizer. -/
structure AuthzDeps where
  hmacHex : String → String → String
  parseURL : String → Except GoErr String
  signerSign : String → String → Except GoErr (String × String)
  render : String → Except GoErr String
  renderHeader : String → String → Except GoErr String
  jsonValid : String → Bool
  httpDo : HttpRequest → Except GoErr HttpResponse

/-- signPayload from src/unnamed/part_001 (lines 35-71).  The first guard
returns errors.Wrap applied to the still-nil named error value, which is
nil, so the both-or-neither misconfiguration produces no error and leaves
the request unsigned.  Returns the error and the (possibly mutated)
request. -/
def signPayload (deps : AuthzDeps) (req : HttpRequest) (body : String)
    (header sharedKey jwksUrl issuer : String) : Option GoErr × HttpRequest :=
  if ((sharedKey != "") = (jwksUrl != "")) then
    (errorsWrap none "exactly one of hmac.shared_key or hmac.jwks_url must be specified",
      req)
  else if sharedKey != "" then
    let sig := deps.hmacHex body sharedKey
    let header := if header = "" then "X-Request-Signature" else header
    (none, headerAdd req header sig)
  else
    match deps.parseURL jwksUrl with
    | .error e => (some e, req)
    | .ok jwks =>
      match deps.signerSign jwks body with
      | .error e => (some e, req)
      | .ok (sig, keyId) =>
        let header := if header = "" then "X-Jwks-Signature" else header
        let req := headerAdd req header sig
        let req := headerAdd req (header ++ "-Kid") keyId
        let req :=
          if issuer.length > 0 then headerAdd req "X-Jwks-Issuer" issuer else req
        (none, req)

/-- The outcome of Config / Validate / Authorize: a nil-pointer panic, an
error return, a Forbidden decision, an unexpected upstream status, or
success carrying the updated session header overrides. -/
inductive ConfigResult where
  | panicked
  | failed (e : GoErr)
  | ok (c : AuthorizerRemoteJSONConfiguration)
deriving DecidableEq

/-- AuthorizerRemoteJSON.Config from src/unnamed/part_000 (lines 252-279),
taking the already-merged configuration (the AuthorizerConfig merge is
abstracted as successful).  The source calls
time.ParseDuration(c.Retry.Timeout) without checking c.Retry for nil, so a
configuration without a retry block dereferences a nil pointer. -/
def Config (parseDuration : String → Option Int)
    (c : AuthorizerRemoteJSONConfiguration) : ConfigResult :=
  match c.Retry with
  | none => .panicked
  | some retry =>
    match parseDuration retry.Timeout with
    | none => .failed (.msg "invalid duration max_delay")
    | some _ =>
      match parseDuration retry.MaxWait with
      | none => .failed (.msg "invalid duration give_up_after")
      | some _ => .ok c

/-- AuthorizerRemoteJSON.Validate: the enabled check, then Config. -/
def Validate (enabled : Bool) (parseDuration : String → Option Int)
    (c : AuthorizerRemoteJSONConfiguration) : ConfigResult :=
  if !enabled then .failed (.msg "authorizer not enabled")
  else Config parseDuration c

inductive AuthzOutcome where
  | panicked
  | failed (e : GoErr)
  | forbidden
  | unexpectedStatus (got : Nat)
  | ok (session : List (String × String))
deriving DecidableEq

/-- Copy each forward-listed header from the response into the session's
outbound header overrides (an absent response header is copied as the
empty string, since res.Header.Get returns ""). -/
def forwardHeaders (forward : List String) (resHeader : String → String)
    (session : List (String × String)) : List (String × String) :=
  forward.foldl (fun s h => sessionSetHeader s h (resHeader h)) session

/-- The response-handling tail of Authorize (src/unnamed/part_000 lines
220-230): 403 maps to Forbidden, any other non-200 to an error carrying
the observed status, and 200 to success with the forward-listed headers
copied into the session. -/
def handleResponse (c : AuthorizerRemoteJSONConfiguration)
    (session : List (String × String)) (res : HttpResponse) : AuthzOutcome :=
  if res.StatusCode = 403 then .forbidden
  else if res.StatusCode ≠ 200 then .unexpectedStatus res.StatusCode
  else .ok (forwardHeaders c.ForwardResponseHeadersToUpstream res.header session)

/-- The per-header template rendering loop of Authorize (lines 180-204):
render each configured header template, skip empty renders, Set the rest. -/
def renderHeaderFold (deps : AuthzDeps) :
    List (String × String) → HttpRequest → Except GoErr HttpRequest
  | [], req => .ok req
  | (hdr, templateString) :: rest, req =>
    match deps.renderHeader hdr templateString with
    | .error e => .error e
    | .ok v =>
      if v = "" then renderHeaderFold deps rest req
      else renderHeaderFold deps rest (headerSet req hdr v)

/-- AuthorizerRemoteJSON.Authorize from src/unnamed/part_000 (lines
111-231): configuration, payload template rendering, JSON validation,
request construction with forwarded inbound headers, optional signing,
header templates, the HTTP call and response handling. -/
def Authorize (parseDuration : String → Option Int) (deps : AuthzDeps)
    (inHeader : String → String) (session : List (String × String))
    (c0 : AuthorizerRemoteJSONConfiguration) : AuthzOutcome :=
  match Config parseDuration c0 with
  | .panicked => .panicked
  | .failed e => .failed e
  | .ok c =>
    match deps.render c.Payload with
    | .error e => .failed e
    | .ok body =>
      if !deps.jsonValid body then .failed (.msg "payload is not a JSON text")
      else
        let req : HttpRequest :=
          { method := "POST", url := c.Remote, body := body, headers := [] }
        let req := headerAdd req "Content-Type" "application/json"
        let corrId := inHeader "x-correlation-id"
        let req := if corrId.length > 0 then headerAdd req "X-Correlation-ID" corrId else req
        let fingerprint := inHeader "X-Session-Entropy"
        let req :=
          if fingerprint.length > 0 then headerAdd req "X-Session-Entropy" fingerprint
          else req
        let authz := inHeader "Authorization"
        let req := if authz != "" then headerAdd req "Authorization" authz else req
        let signed : Option GoErr × HttpRequest :=
          match c.SignedPayload with
          | some sp =>
            if body.length > 0 then
              signPayload deps req body sp.Header sp.SharedKey sp.JWKSURL sp.Issuer
            else (none, req)
          | none => (none, req)
        match signed with
        | (some e, _) => .failed e
        | (none, req2) =>
          match renderHeaderFold deps c.Headers req2 with
          | .error e => .failed e
          | .ok req3 =>
            match deps.httpDo req3 with
            | .error e => .failed e
            | .ok res => handleResponse c session res

theorem find_after_set_ne (t : List (String × String)) (k v h : String)
    (hk : h ≠ k) :
    List.find? (fun p => p.1 = h) ((t.filter fun p => p.1 ≠ k) ++ [(k, v)])
      = List.find? (fun p => p.1 = h) t := by
  induction t with
  | nil =>
    rw [List.filter_nil, List.nil_append,
      List.find?_cons_of_neg _ (by simp [Ne.symm hk]), List.find?_nil]
  | cons a t ih =>
    obtain ⟨a1, a2⟩ := a
    by_cases hak : a1 = k
    · subst hak
      rw [List.filter_cons_of_neg (by simp)]
      rw [ih, List.find?_cons_of_neg _ (by simp [Ne.symm hk])]
    · rw [List.filter_cons_of_pos (by simp [hak])]
      by_cases hah : a1 = h
      · subst hah
        rw [List.cons_append, List.find?_cons_of_pos _ (by simp),
          List.find?_cons_of_pos _ (by simp)]
      · rw [List.cons_append, List.find?_cons_of_neg _ (by simp [hah]),
          List.find?_cons_of_neg _ (by simp [hah]), ih]

theorem find_after_set_eq (t : List (String × String)) (k v : String) :
    List.find? (fun p => p.1 = k) ((t.filter fun p => p.1 ≠ k) ++ [(k, v)])
      = some (k, v) := by
  induction t with
  | nil =>
    rw [List.filter_nil, List.nil_append, List.find?_cons_of_pos _ (by simp)]
  | cons a t ih =>
    obtain ⟨a1, a2⟩ := a
    by_cases hak : a1 = k
    · subst hak
      rw [List.filter_cons_of_neg (by simp)]
      exact ih
    · rw [List.filter_cons_of_pos (by simp [hak]), List.cons_append,
        List.find?_cons_of_neg _ (by simp [hak])]
      exact ih

theorem sessionGet_setHeader (s : List (String × String)) (k v h : String) :
    sessionGet (sessionSetHeader s k v) h
      = if h = k then some v else sessionGet s h := by
  unfold sessionGet sessionSetHeader
  by_cases hk : h = k
  · subst hk
    rw [find_after_set_eq, if_pos rfl]
    rfl
  · rw [find_after_set_ne s k v h hk, if_neg hk]

theorem forwardHeaders_lookup (forward : List String) (resHeader : String → String) :
    ∀ (session : List (String × String)) (h : String),
      sessionGet (forwardHeaders forward resHeader session) h
        = if forward.contains h then some (resHeader h) else sessionGet session h := by
  induction forward with
  | nil =>
    intro session h
    simp [forwardHeaders]
  | cons f rest ih =>
    intro session h
    rw [show forwardHeaders (f :: rest) resHeader session
        = forwardHeaders rest resHeader (sessionSetHeader session f (resHeader f)) from rfl]
    rw [ih]
    by_cases hmem : rest.contains h = true
    · rw [if_pos hmem, if_pos (by simp only [List.contains_cons, hmem, Bool.or_true])]
    · rw [if_neg hmem, sessionGet_setHeader]
      by_cases hf : h = f
      · subst hf
        rw [if_pos rfl, if_pos (by simp [List.contains_cons])]
      · have hnotc : ¬((f :: rest).contains h = true) := by
          intro hc
          rw [List.contains_cons, Bool.or_eq_true] at hc
          rcases hc with hc | hc
          · rw [beq_iff_eq] at hc
            exact hf hc
          · exact hmem hc
        rw [if_neg hf, if_neg hnotc]

/-- C9: the response-handling tail of Authorize maps status 403 to a
Forbidden decision, any other non-200 status to an error carrying the
observed status, and 200 to success; on 200 every header named in the
forward-response-headers list is copied from the response into the
session's outbound header overrides (looking up such a header in the
resulting session yields exactly the response header's value, the empty
string when the response lacks it), while headers not in the list are
untouched. -/
theorem c9_remote_json_response (c : AuthorizerRemoteJSONConfiguration)
    (session : List (String × String)) (res : HttpResponse) :
    (res.StatusCode = 403 → handleResponse c session res = .forbidden) ∧
    (res.StatusCode ≠ 403 → res.StatusCode ≠ 200 →
      handleResponse c session res = .unexpectedStatus res.StatusCode) ∧
    (res.StatusCode = 200 →
      handleResponse c session res
        = .ok (forwardHeaders c.ForwardResponseHeadersToUpstream res.header session) ∧
      ∀ h : String,
        sessionGet (forwardHeaders c.ForwardResponseHeadersToUpstream res.header session) h
          = if c.ForwardResponseHeadersToUpstream.contains h then some (res.header h)
            else sessionGet session h) := by
  refine ⟨fun h403 => ?_, fun h403 h200 => ?_, fun h200 => ⟨?_, ?_⟩⟩
  · rw [handleResponse, if_pos h403]
  · rw [handleResponse, if_neg h403, if_pos h200]
  · rw [handleResponse, if_neg (by rw [h200]; decide), if_neg (by rw [h200]; decide)]
  · exact forwardHeaders_lookup c.ForwardResponseHeadersToUpstream res.header session

/-- A configuration forwarding two response headers, used by the C9 witness. -/
def cFwd : AuthorizerRemoteJSONConfiguration :=
  { Remote := "http://remote", Headers := [], Payload := "\x7b\x7d",
    ForwardResponseHeadersToUpstream := ["X-Foo", "X-Missing"],
    Retry := some ⟨"1s", "2s"⟩, SignedPayload := none }

def res403 : HttpResponse := ⟨403, fun _ => ""⟩

def res500 : HttpResponse := ⟨500, fun _ => ""⟩

/-- A 200 response carrying X-Foo but not X-Missing. -/
def res200 : HttpResponse := ⟨200, fun h => if h = "X-Foo" then "bar" else ""⟩

theorem c9_remote_json_response_witness :
    handleResponse cFwd [] res403 = .forbidden ∧
    handleResponse cFwd [] res500 = .unexpectedStatus 500 ∧
    handleResponse cFwd [] res200
      = .ok (forwardHeaders cFwd.ForwardResponseHeadersToUpstream res200.header []) ∧
    sessionGet (forwardHeaders cFwd.ForwardResponseHeadersToUpstream res200.header [])
      "X-Foo" = some "bar" ∧
    sessionGet (forwardHeaders cFwd.ForwardResponseHeadersToUpstream res200.header [])
      "X-Missing" = some "" := by
  refine ⟨(c9_remote_json_response cFwd [] res403).1 rfl,
    (c9_remote_json_response cFwd [] res500).2.1 (by decide) (by decide),
    ((c9_remote_json_response cFwd [] res200).2.2 rfl).1, ?_, ?_⟩
  · rw [((c9_remote_json_response cFwd [] res200).2.2 rfl).2 "X-Foo"]
    decide
  · rw [((c9_remote_json_response cFwd [] res200).2.2 rfl).2 "X-Missing"]
    decide

/-- The configuration of the C1 run: signed payload with BOTH a shared key
and a JWKS URL set, the misconfiguration the spec says must fail. -/
def cBoth : AuthorizerRemoteJSONConfiguration :=
  { Remote := "http://remote", Headers := [], Payload := "\x7b\x7d",
    ForwardResponseHeadersToUpstream := [],
    Retry := some ⟨"1s", "2s"⟩,
    SignedPayload := some ⟨"X-Sig", "key", "https://jwks", "iss"⟩ }

/-- Collaborators for the C1 run.  The HTTP client returns 200 exactly when
the outbound request carries only the Content-Type header — i.e. when no
signature header of any kind was added — and 403 otherwise, so a successful
outcome proves the call went out unsigned. -/
def depsC1 : AuthzDeps :=
  { hmacHex := fun _ _ => "sig",
    parseURL := fun s => .ok s,
    signerSign := fun _ _ => .ok ("sig", "kid"),
    render := fun s => .ok s,
    renderHeader := fun _ _ => .ok "",
    jsonValid := fun _ => true,
    httpDo := fun req =>
      if req.headers.length = 1 then .ok ⟨200, fun _ => ""⟩
      else .ok ⟨403, fun _ => ""⟩ }

def reqC1 : HttpRequest :=
  { method := "POST", url := "http://remote", body := "\x7b\x7d",
    headers := [("Content-Type", "application/json")] }

/-- C1 is refuted by the code: the first guard of signPayload returns
errors.Wrap of the still-nil named error, which is nil, so for every
configuration where the shared key and the JWKS URL are both set (or both
empty) signPayload reports no error and leaves the request untouched; an
Authorize run with both set therefore proceeds to the outbound HTTP call
with an unsigned request and succeeds, instead of failing with the
configuration error the guard's message announces. -/
theorem c1_signing_misconfiguration_bug :
    (∀ deps req body header sharedKey jwksUrl issuer,
      ((sharedKey != "") = (jwksUrl != "")) →
      signPayload deps req body header sharedKey jwksUrl issuer = (none, req)) ∧
    Authorize (fun _ => some 1) depsC1 (fun _ => "") [] cBoth = .ok [] := by
  constructor
  · intro deps req body header sharedKey jwksUrl issuer hguard
    rw [signPayload, if_pos hguard]
    rfl
  · rfl

theorem c1_signing_misconfiguration_bug_witness :
    signPayload depsC1 reqC1 "\x7b\x7d" "X-Sig" "key" "https://jwks" "iss"
      = (none, reqC1) ∧
    signPayload depsC1 reqC1 "\x7b\x7d" "X-Sig" "" "" "iss" = (none, reqC1) :=
  ⟨c1_signing_misconfiguration_bug.1 depsC1 reqC1 "\x7b\x7d" "X-Sig" "key"
      "https://jwks" "iss" (by decide),
    c1_signing_misconfiguration_bug.1 depsC1 reqC1 "\x7b\x7d" "X-Sig" "" "" "iss"
      (by decide)⟩

/-- C10: Config dereferences the retry configuration unconditionally — a
merged configuration without a retry block makes Config, and hence Validate
even when enabled, fail on the nil dereference (modelled as the panicked
outcome, returning neither a configuration nor an error); and Config only
succeeds when a retry block is present and both its durations parse. -/
theorem c10_retry_nil_deref (pd : String → Option Int)
    (c : AuthorizerRemoteJSONConfiguration) :
    (c.Retry = none → Config pd c = .panicked ∧ Validate true pd c = .panicked) ∧
    (∀ cfg, Config pd c = .ok cfg →
      cfg = c ∧ ∃ retry, c.Retry = some retry ∧
        (∃ t, pd retry.Timeout = some t) ∧ (∃ w, pd retry.MaxWait = some w)) := by
  constructor
  · intro hnil
    rw [Config, hnil]
    exact ⟨rfl, by rw [show Validate true pd c = Config pd c from rfl, Config, hnil]⟩
  · intro cfg hok
    rw [Config] at hok
    cases hr : c.Retry with
    | none => rw [hr] at hok; exact absurd hok (by simp)
    | some retry =>
      rw [hr] at hok
      dsimp only [] at hok
      cases ht : pd retry.Timeout with
      | none => rw [ht] at hok; exact absurd hok (by simp)
      | some t =>
        rw [ht] at hok
        dsimp only [] at hok
        cases hw : pd retry.MaxWait with
        | none => rw [hw] at hok; exact absurd hok (by simp)
        | some w =>
          rw [hw] at hok
          dsimp only [] at hok
          simp only [ConfigResult.ok.injEq] at hok
          exact ⟨hok.symm, retry, rfl, ⟨t, ht⟩, ⟨w, hw⟩⟩

/-- A configuration identical to cBoth except that the retry block is
absent. -/
def cNoRetry : AuthorizerRemoteJSONConfiguration :=
  { cBoth with Retry := none }

theorem c10_retry_nil_deref_witness :
    Config (fun _ => some 1) cNoRetry = .panicked ∧
    Validate true (fun _ => some 1) cNoRetry = .panicked ∧
    (cBoth = cBoth ∧ ∃ retry, cBoth.Retry = some retry ∧
      (∃ t, (fun _ => some (1 : Int)) retry.Timeout = some t) ∧
      (∃ w, (fun _ => some (1 : Int)) retry.MaxWait = some w)) :=
  ⟨((c10_retry_nil_deref (fun _ => some 1) cNoRetry).1 rfl).1,
    ((c10_retry_nil_deref (fun _ => some 1) cNoRetry).1 rfl).2,
    (c10_retry_nil_deref (fun _ => some 1) cBoth).2 cBoth rfl⟩

end Authz






